import Mathlib

/-!
# Verification of the ClaudeHydra session/queue/conflict subsystem

Shallow embedding of the core data structures and operations of
`src/hydra-launcher/src-tauri/src/session/{types.rs, queue.rs, manager.rs, conflict.rs}`.

Modelling conventions:
* Rust `HashMap` is modelled as an association list `List (String × β)`;
  `insert` removes any previous binding and conses the new one, `remove`
  filters the key out.  Lookup order is irrelevant because keys stay distinct.
* Rust `BinaryHeap<PriorityPrompt>` is modelled as a list kept sorted in
  descending heap order; `pop` takes the head (a maximal element), `push`
  inserts after all elements that are not strictly smaller.
* `SystemTime::now()` millisecond readings are passed explicitly as `now : Nat`
  parameters.  `u64` arithmetic on timestamps is modelled with `Nat`
  (the code assumes a monotone clock; subtraction never underflows there).
* Filesystem metadata reads (`std::fs::metadata(..).modified()`) are passed
  explicitly as `Option Nat` (`none` models an IO error), and the current
  working directory used by `Path` absolutization is a `cwd : String` argument.
* The loop in `PromptQueue::dequeue` need not terminate, so it is embedded
  with explicit fuel; the result `diverged` means the fuel was exhausted
  while the Rust loop was still running.
-/

/-- `CLIProvider` from `session/types.rs`. -/
inductive CLIProvider where
  | hydra
  | gemini
  | jules
  | deepSeek
  | codex
  | grok
  | ollama
deriving DecidableEq, Repr

/-- `PromptStatus` from `session/types.rs`. -/
inductive PromptStatus where
  | queued
  | processing
  | completed
  | failed
  | cancelled
deriving DecidableEq, Repr

/-- `PromptPriority` from `session/types.rs` (`Low = 0 .. Critical = 3`);
the derived Rust `Ord` compares the discriminants. -/
inductive PromptPriority where
  | low
  | normal
  | high
  | critical
deriving DecidableEq, Repr

/-- Discriminant of `PromptPriority`, matching the `Low = 0 .. Critical = 3`
values assigned in the Rust enum. -/
def PromptPriority.rank : PromptPriority → Nat
  | .low => 0
  | .normal => 1
  | .high => 2
  | .critical => 3

/-- `QueuedPrompt` from `session/types.rs`. -/
structure QueuedPrompt where
  id : String
  tabId : String
  sessionId : String
  content : String
  provider : CLIProvider
  priority : PromptPriority
  status : PromptStatus
  createdAt : Nat
  startedAt : Option Nat
  completedAt : Option Nat
  response : Option String
  error : Option String
  affectedFiles : List String
deriving DecidableEq, Repr

/-- `QueuedPrompt::new` from `session/types.rs`: the id is
`format!("prompt_{}_{}", tab_id, now)` where `now` is the current
millisecond timestamp. -/
def QueuedPrompt.new (tabId sessionId content : String) (provider : CLIProvider)
    (now : Nat) : QueuedPrompt :=
  { id := "prompt_" ++ tabId ++ "_" ++ toString now
    tabId := tabId
    sessionId := sessionId
    content := content
    provider := provider
    priority := .normal
    status := .queued
    createdAt := now
    startedAt := none
    completedAt := none
    response := none
    error := none
    affectedFiles := [] }

/-! ## Association-list model of `HashMap<String, β>` -/

/-- Lookup in an association list (`HashMap::get`). -/
def lookupA {β : Type} : List (String × β) → String → Option β
  | [], _ => none
  | kv :: l, k => if kv.1 = k then some kv.2 else lookupA l k

/-- Remove a key (`HashMap::remove`). -/
def eraseA {β : Type} (k : String) : List (String × β) → List (String × β)
  | [] => []
  | kv :: l => if kv.1 = k then eraseA k l else kv :: eraseA k l

/-- Insert/overwrite a binding (`HashMap::insert`). -/
def insertA {β : Type} (k : String) (v : β) (l : List (String × β)) :
    List (String × β) :=
  (k, v) :: eraseA k l

/-- `HashMap::contains_key`. -/
def containsKeyA {β : Type} (l : List (String × β)) (k : String) : Bool :=
  (lookupA l k).isSome

/-- The keys of an association list. -/
def keysA {β : Type} (l : List (String × β)) : List String :=
  l.map Prod.fst

/-! ## The binary heap of `PriorityPrompt` -/

/-- `impl Ord for PriorityPrompt` in `session/queue.rs`: higher priority
first, then earlier `created_at` first. -/
def cmpPP (a b : QueuedPrompt) : Ordering :=
  (compare a.priority.rank b.priority.rank).then (compare b.createdAt a.createdAt)

/-- Push into the heap, modelled as insertion into a list sorted in
descending `cmpPP` order; an element equal to existing ones goes after them. -/
def insertHeap (p : QueuedPrompt) : List QueuedPrompt → List QueuedPrompt
  | [] => [p]
  | h :: t => if cmpPP p h = .gt then p :: h :: t else h :: insertHeap p t

/-- Descending-order relation maintained by the heap list: `a` is not
strictly below `b`. -/
def pgeP (a b : QueuedPrompt) : Prop := cmpPP a b ≠ .lt

instance : DecidablePred fun ab : QueuedPrompt × QueuedPrompt => pgeP ab.1 ab.2 :=
  fun _ => instDecidableNot

/-! ## `PromptQueue` state and operations (`session/queue.rs`) -/

/-- The `PromptQueue` struct. -/
structure PromptQueue where
  queue : List QueuedPrompt
  promptsById : List (String × QueuedPrompt)
  promptsByTab : List (String × List String)
  processing : List (String × String)
  completed : List QueuedPrompt
  maxConcurrent : Nat
  totalCompleted : Nat
  totalFailed : Nat
  totalWaitMs : Nat
  totalProcessMs : Nat
deriving DecidableEq, Repr

/-- `PromptQueue::new`. -/
def PromptQueue.new (maxConcurrent : Nat) : PromptQueue :=
  { queue := []
    promptsById := []
    promptsByTab := []
    processing := []
    completed := []
    maxConcurrent := maxConcurrent
    totalCompleted := 0
    totalFailed := 0
    totalWaitMs := 0
    totalProcessMs := 0 }

/-- `PromptQueue::enqueue`; returns the id like the Rust method. -/
def PromptQueue.enqueue (prompt : QueuedPrompt) (s : PromptQueue) :
    String × PromptQueue :=
  (prompt.id,
    { s with
      promptsById := insertA prompt.id prompt s.promptsById
      promptsByTab :=
        match lookupA s.promptsByTab prompt.tabId with
        | some q => insertA prompt.tabId (q ++ [prompt.id]) s.promptsByTab
        | none => insertA prompt.tabId [prompt.id] s.promptsByTab
      queue := insertHeap prompt s.queue })

/-- Result of a `dequeue` call: `diverged` means the scan loop was still
running when the fuel ran out (the Rust loop has no other exit in that
case), `empty` models `None`, `got p` models `Some(p)`. -/
inductive DeqResult where
  | diverged
  | empty
  | got (p : QueuedPrompt)
deriving DecidableEq, Repr

/-- The body of a successful pop in `dequeue`: mark the prompt Processing,
record `started_at`, store it back and reserve the tab slot. -/
def markPrompt (now : Nat) (h : QueuedPrompt) (rest : List QueuedPrompt)
    (s : PromptQueue) : DeqResult × PromptQueue :=
  let p := { h with status := PromptStatus.processing, startedAt := some now }
  (DeqResult.got p,
    { s with
      queue := rest
      promptsById := insertA p.id p s.promptsById
      processing := insertA p.tabId p.id s.processing })

/-- The `while let Some(..) = self.queue.pop()` loop of `PromptQueue::dequeue`,
with explicit fuel.  A popped prompt whose tab is busy is pushed back and the
scan continues; a popped prompt whose stored status is Cancelled is dropped;
otherwise the prompt is marked Processing and returned. -/
def dequeueLoop (now : Nat) : Nat → PromptQueue → DeqResult × PromptQueue
  | 0, s => (DeqResult.diverged, s)
  | fuel + 1, s =>
    match s.queue with
    | [] => (DeqResult.empty, s)
    | h :: rest =>
      if containsKeyA s.processing h.tabId then
        dequeueLoop now fuel { s with queue := insertHeap h rest }
      else
        match lookupA s.promptsById h.id with
        | some stored =>
          if stored.status = PromptStatus.cancelled then
            dequeueLoop now fuel { s with queue := rest }
          else markPrompt now h rest s
        | none => markPrompt now h rest s

/-- `PromptQueue::dequeue`: refuse when the processing count has reached
`max_concurrent`, otherwise run the scan loop. -/
def PromptQueue.dequeue (fuel now : Nat) (s : PromptQueue) :
    DeqResult × PromptQueue :=
  if s.processing.length ≥ s.maxConcurrent then (DeqResult.empty, s)
  else dequeueLoop now fuel s

/-- Push a terminal prompt into the bounded completed history
(capacity 100, oldest evicted first). -/
def pushHistory (p : QueuedPrompt) (completed : List QueuedPrompt) :
    List QueuedPrompt :=
  (if completed.length ≥ 100 then completed.tail else completed) ++ [p]

/-- `PromptQueue::complete`. -/
def PromptQueue.complete (promptId response : String) (now : Nat)
    (s : PromptQueue) : PromptQueue :=
  match lookupA s.promptsById promptId with
  | none => s
  | some prompt =>
    let p := { prompt with
      status := PromptStatus.completed
      completedAt := some now
      response := some response }
    let newProcessMs :=
      match prompt.startedAt with
      | some started => s.totalProcessMs + (now - started)
      | none => s.totalProcessMs
    let newWaitMs :=
      match prompt.startedAt with
      | some started => s.totalWaitMs + (started - prompt.createdAt)
      | none => s.totalWaitMs
    { s with
      promptsById := eraseA promptId s.promptsById
      totalProcessMs := newProcessMs
      totalWaitMs := newWaitMs
      totalCompleted := s.totalCompleted + 1
      processing := eraseA prompt.tabId s.processing
      promptsByTab :=
        match lookupA s.promptsByTab prompt.tabId with
        | some q => insertA prompt.tabId (q.filter fun i => i ≠ promptId) s.promptsByTab
        | none => s.promptsByTab
      completed := pushHistory p s.completed }

/-- `PromptQueue::fail`.  Note: unlike `complete`, it does not touch
`total_wait_ms` / `total_process_ms`. -/
def PromptQueue.fail (promptId errorText : String) (now : Nat)
    (s : PromptQueue) : PromptQueue :=
  match lookupA s.promptsById promptId with
  | none => s
  | some prompt =>
    let p := { prompt with
      status := PromptStatus.failed
      completedAt := some now
      error := some errorText }
    { s with
      promptsById := eraseA promptId s.promptsById
      totalFailed := s.totalFailed + 1
      processing := eraseA prompt.tabId s.processing
      promptsByTab :=
        match lookupA s.promptsByTab prompt.tabId with
        | some q => insertA prompt.tabId (q.filter fun i => i ≠ promptId) s.promptsByTab
        | none => s.promptsByTab
      completed := pushHistory p s.completed }

/-- `PromptQueue::cancel`: succeeds only against Queued status. -/
def PromptQueue.cancel (promptId : String) (s : PromptQueue) :
    Bool × PromptQueue :=
  match lookupA s.promptsById promptId with
  | some prompt =>
    if prompt.status = PromptStatus.queued then
      (true,
        { s with
          promptsById :=
            insertA promptId { prompt with status := PromptStatus.cancelled }
              s.promptsById })
    else (false, s)
  | none => (false, s)

/-- `QueueStats` from `session/types.rs`. -/
structure QueueStats where
  totalQueued : Nat
  processing : Nat
  completedToday : Nat
  failedToday : Nat
  averageWaitMs : Nat
  averageProcessMs : Nat
deriving DecidableEq, Repr

/-- `PromptQueue::get_stats`. -/
def PromptQueue.getStats (s : PromptQueue) : QueueStats :=
  { totalQueued :=
      (s.promptsById.filter fun kv => kv.2.status == PromptStatus.queued).length
    processing := s.processing.length
    completedToday := s.totalCompleted
    failedToday := s.totalFailed
    averageWaitMs :=
      if s.totalCompleted > 0 then s.totalWaitMs / s.totalCompleted else 0
    averageProcessMs :=
      if s.totalCompleted > 0 then s.totalProcessMs / s.totalCompleted else 0 }

/-- `PromptQueue::is_tab_busy`. -/
def PromptQueue.isTabBusy (tabId : String) (s : PromptQueue) : Bool :=
  containsKeyA s.processing tabId

/-! ## Traces of queue operations -/

/-- One public `PromptQueue` call (the five operations the claims range
over).  `deq` carries the clock reading and the fuel for the scan loop. -/
inductive QOp where
  | enq (p : QueuedPrompt)
  | deq (fuel now : Nat)
  | comp (id resp : String) (now : Nat)
  | fl (id err : String) (now : Nat)
  | cncl (id : String)
deriving DecidableEq, Repr

/-- Apply one call, keeping only the state. -/
def applyOp (s : PromptQueue) : QOp → PromptQueue
  | .enq p => (s.enqueue p).2
  | .deq fuel now => (s.dequeue fuel now).2
  | .comp id resp now => s.complete id resp now
  | .fl id err now => s.fail id err now
  | .cncl id => (s.cancel id).2

/-- Run a sequence of calls. -/
def runOps (s : PromptQueue) (ops : List QOp) : PromptQueue :=
  ops.foldl applyOp s

/-- Well-usage of a single call: enqueued prompts are fresh Queued requests
(as produced by `QueuedPrompt::new`), and `complete`/`fail` are only invoked
with the id of a currently-Processing request (as `SessionManager` does). -/
def wfOp (s : PromptQueue) : QOp → Bool
  | .enq p => p.status == PromptStatus.queued && (lookupA s.promptsById p.id).isNone
  | .deq _ _ => true
  | .comp id _ _ => s.processing.any fun kv => kv.2 == id
  | .fl id _ _ => s.processing.any fun kv => kv.2 == id
  | .cncl _ => true

/-- Well-usage of a whole call sequence. -/
def wfTrace (s : PromptQueue) : List QOp → Bool
  | [] => true
  | op :: ops => wfOp s op && wfTrace (applyOp s op) ops

/-- Number of requests currently recorded with Processing status for a
given tab. -/
def countTabProcessing (s : PromptQueue) (tabId : String) : Nat :=
  (s.promptsById.filter fun kv =>
    kv.2.status == PromptStatus.processing && kv.2.tabId == tabId).length

/-- Number of requests currently recorded with Processing status across
all tabs. -/
def countProcessing (s : PromptQueue) : Nat :=
  (s.promptsById.filter fun kv => kv.2.status == PromptStatus.processing).length

/-- The requests eligible for `dequeue`: stored with Queued status and
belonging to a tab with no Processing entry. -/
def candidateList (s : PromptQueue) : List QueuedPrompt :=
  (s.promptsById.filter fun kv =>
    kv.2.status == PromptStatus.queued && !containsKeyA s.processing kv.2.tabId).map
    Prod.snd

/-! ## `SessionManager::process_queue` (`session/manager.rs`)

The dispatch step: dequeue under the queue lock, release it, execute the
prompt via the provider, then record the outcome with `complete`/`fail`.
The provider call is passed in as a function `exec` (it is an external
collaborator in the spec); the conversation-log append on success touches
only the tab table, which no claim observes, and is omitted.  The result
`none` models the case in which the `dequeue` call never returns. -/

/-- One `process_queue` step.  On provider error the request is failed and
the step still returns `Some((id, format!("Error: {}", error)))`. -/
def processQueue (exec : QueuedPrompt → Except String String)
    (fuel now1 now2 : Nat) (s : PromptQueue) :
    Option (Option (String × String)) × PromptQueue :=
  match s.dequeue fuel now1 with
  | (DeqResult.diverged, s1) => (none, s1)
  | (DeqResult.empty, s1) => (some none, s1)
  | (DeqResult.got p, s1) =>
    match exec p with
    | .ok response => (some (some (p.id, response)), s1.complete p.id response now2)
    | .error e => (some (some (p.id, "Error: " ++ e)), s1.fail p.id e now2)

/-! ## `ConflictDetector` (`session/conflict.rs`) -/

/-- `ConflictType` from `session/types.rs`. -/
inductive ConflictType where
  | concurrentEdit
  | externalChange
  | uncommittedChanges
deriving DecidableEq, Repr

/-- `FileConflict` from `session/types.rs`. -/
structure FileConflict where
  filePath : String
  tabsInvolved : List String
  conflictType : ConflictType
  detectedAt : Nat
deriving DecidableEq, Repr

/-- The `ConflictDetector` struct; `HashSet<TabId>` is modelled as a
duplicate-free list. -/
structure ConflictDetector where
  fileToTabs : List (String × List String)
  tabToFiles : List (String × List String)
  conflicts : List FileConflict
  fileTimestamps : List (String × Nat)
deriving DecidableEq, Repr

/-- `ConflictDetector::new`. -/
def ConflictDetector.new : ConflictDetector :=
  { fileToTabs := [], tabToFiles := [], conflicts := [], fileTimestamps := [] }

/-- `HashSet::insert` on the list model. -/
def insertSet (x : String) (l : List String) : List String :=
  if l.contains x then l else x :: l

/-- Replace every backslash with a forward slash (the
`replace('\\', "/")` step of `normalize_path`), written over the
character list underlying the string so that it reduces in the kernel. -/
def slashify (s : String) : String :=
  ⟨s.data.map fun c => if c = '\\' then '/' else c⟩

/-- Unix `Path::is_absolute`: the path begins with the separator. -/
def isAbsolutePath (p : String) : Bool :=
  match p.data with
  | [] => false
  | c :: _ => c = '/'

/-- `ConflictDetector::normalize_path` on a Unix platform: an absolute path
(leading `/`) is kept, a relative one is joined onto the current directory;
separators are canonicalized.  `cwd` stands for `std::env::current_dir()`. -/
def normalizePath (cwd path : String) : String :=
  if isAbsolutePath path then slashify path
  else slashify (cwd ++ "/" ++ path)

/-- Drop `tab_id` from the tab set of `file` in `file_to_tabs`, pruning the
file key when its set becomes empty (the inner loop of `register_files` /
`unregister_tab`). -/
def removeTabFromFile (tabId file : String)
    (m : List (String × List String)) : List (String × List String) :=
  match lookupA m file with
  | some tabs =>
    let tabs' := tabs.filter fun t => t ≠ tabId
    if tabs' = [] then eraseA file m else insertA file tabs' m
  | none => m

/-- `ConflictDetector::detect_conflicts`: rebuild the conflict list from
scratch, one `ConcurrentEdit` entry per file registered to two or more
tabs. -/
def detectConflicts (now : Nat) (d : ConflictDetector) : ConflictDetector :=
  { d with
    conflicts := d.fileToTabs.filterMap fun ft =>
      if ft.2.length > 1 then
        some { filePath := ft.1
               tabsInvolved := ft.2
               conflictType := ConflictType.concurrentEdit
               detectedAt := now }
      else none }

/-- `ConflictDetector::register_files`.  `mtime file` stands for
`fs::metadata(&file).modified()` (`none` on IO error); `cwd` feeds
`normalize_path`; `now` is the `detected_at` clock reading. -/
def ConflictDetector.registerFiles (tabId : String) (files : List String)
    (cwd : String) (now : Nat) (mtime : String → Option Nat)
    (d : ConflictDetector) : ConflictDetector :=
  let d1 :=
    match lookupA d.tabToFiles tabId with
    | some oldFiles =>
      { d with
        tabToFiles := eraseA tabId d.tabToFiles
        fileToTabs := oldFiles.foldl (fun m file => removeTabFromFile tabId file m)
          d.fileToTabs }
    | none => d
  let step := fun (acc : ConflictDetector × List String) (file : String) =>
    let normalized := normalizePath cwd file
    let dTs :=
      if containsKeyA acc.1.fileTimestamps normalized then acc.1
      else
        match mtime file with
        | some ts =>
          { acc.1 with fileTimestamps := insertA normalized ts acc.1.fileTimestamps }
        | none => acc.1
    let newTabs :=
      match lookupA dTs.fileToTabs normalized with
      | some tabs => insertSet tabId tabs
      | none => [tabId]
    ({ dTs with fileToTabs := insertA normalized newTabs dTs.fileToTabs },
      insertSet normalized acc.2)
  let acc := files.foldl step (d1, [])
  detectConflicts now
    { acc.1 with tabToFiles := insertA tabId acc.2 acc.1.tabToFiles }

/-- `ConflictDetector::unregister_tab`. -/
def ConflictDetector.unregisterTab (tabId : String) (d : ConflictDetector) :
    ConflictDetector :=
  let d1 :=
    match lookupA d.tabToFiles tabId with
    | some files =>
      { d with
        tabToFiles := eraseA tabId d.tabToFiles
        fileToTabs := files.foldl (fun m file => removeTabFromFile tabId file m)
          d.fileToTabs }
    | none => d
  { d1 with
    conflicts := d1.conflicts.filter fun c => ¬ c.tabsInvolved.contains tabId }

/-- `ConflictDetector::check_external_change`.  `mtime` stands for the
file's current on-disk modification time. -/
def ConflictDetector.checkExternalChange (filePath cwd : String) (now : Nat)
    (mtime : Option Nat) (d : ConflictDetector) : Bool × ConflictDetector :=
  let normalized := normalizePath cwd filePath
  match lookupA d.fileTimestamps normalized with
  | none => (false, d)
  | some oldTs =>
    match mtime with
    | none => (false, d)
    | some currentTs =>
      if currentTs > oldTs then
        let d1 :=
          { d with fileTimestamps := insertA normalized currentTs d.fileTimestamps }
        match lookupA d1.fileToTabs normalized with
        | some tabs =>
          if tabs ≠ [] then
            (true,
              { d1 with
                conflicts := d1.conflicts ++
                  [{ filePath := normalized
                     tabsInvolved := tabs
                     conflictType := ConflictType.externalChange
                     detectedAt := now }] })
          else (false, d1)
        | none => (false, d1)
      else (false, d)

/-- `ConflictDetector::get_conflicts`. -/
def ConflictDetector.getConflicts (d : ConflictDetector) : List FileConflict :=
  d.conflicts

/-- `ConflictDetector::resolve_conflict`. -/
def ConflictDetector.resolveConflict (filePath cwd : String)
    (d : ConflictDetector) : ConflictDetector :=
  { d with
    conflicts := d.conflicts.filter fun c => c.filePath ≠ normalizePath cwd filePath }

/-- `ConflictDetector::would_conflict`: takes `&self`, so the state comes
back unchanged; for each candidate file it reports the other tabs already
registered on it. -/
def ConflictDetector.wouldConflict (tabId : String) (files : List String)
    (cwd : String) (now : Nat) (d : ConflictDetector) :
    List FileConflict × ConflictDetector :=
  (files.foldl
    (fun acc file =>
      let normalized := normalizePath cwd file
      match lookupA d.fileToTabs normalized with
      | some tabs =>
        let otherTabs := tabs.filter fun t => t ≠ tabId
        if otherTabs ≠ [] then
          acc ++
            [{ filePath := normalized
               tabsInvolved := otherTabs
               conflictType := ConflictType.concurrentEdit
               detectedAt := now }]
        else acc
      | none => acc)
    [], d)

/-! ## Concrete states used to evaluate the definitions -/

/-- A request created by `QueuedPrompt::new` for tab `"T"` at t=1. -/
def pA : QueuedPrompt := QueuedPrompt.new "T" "sess" "first" CLIProvider.hydra 1

/-- A second request for the same tab `"T"`, created at t=2. -/
def pB : QueuedPrompt := QueuedPrompt.new "T" "sess" "second" CLIProvider.hydra 2

/-- State with one Processing request for tab `"T"`, one queued request for
the same tab in the heap, and a free concurrency slot (cap 2): the scenario
of the `dequeue` scan-termination requirement. -/
def c1Queue : PromptQueue :=
  runOps (PromptQueue.new 2) [QOp.enq pA, QOp.enq pB, QOp.deq 5 100]

/-- Cap 2: enqueue two requests for tab `"T"`, dequeue the first, then call
`complete` with the id of the still-Queued second request, then dequeue
again. -/
def cex2Queue : PromptQueue :=
  runOps (PromptQueue.new 2)
    [QOp.enq pA, QOp.enq pB, QOp.deq 5 100,
     QOp.comp "prompt_T_2" "resp" 200, QOp.deq 5 300]

/-- The same call sequence with concurrency cap 1. -/
def cex3Queue : PromptQueue :=
  runOps (PromptQueue.new 1)
    [QOp.enq pA, QOp.enq pB, QOp.deq 5 100,
     QOp.comp "prompt_T_2" "resp" 200, QOp.deq 5 300]

/-- A request created at t=100. -/
def pC : QueuedPrompt := QueuedPrompt.new "T" "sess" "late" CLIProvider.hydra 100

/-- Enqueue at t=100, dequeue (start) at t=200, fail at t=300. -/
def cex8Queue : PromptQueue :=
  runOps (PromptQueue.new 1)
    [QOp.enq pC, QOp.deq 5 200, QOp.fl "prompt_T_100" "boom" 300]

/-- Detector after `tab1` registers `/a.rs` (on-disk mtime 10). -/
def cexDetector1 : ConflictDetector :=
  ConflictDetector.new.registerFiles "tab1" ["/a.rs"] "/w" 50 (fun _ => some 10)

/-- ... after `check_external_change("/a.rs")` observes mtime 20 > 10. -/
def cexDetector2 : ConflictDetector :=
  (cexDetector1.checkExternalChange "/a.rs" "/w" 60 (some 20)).2

/-- ... after `tab2` then registers the unrelated file `/b.rs`. -/
def cexDetector3 : ConflictDetector :=
  cexDetector2.registerFiles "tab2" ["/b.rs"] "/w" 70 (fun _ => some 30)

/-- `pA` as it comes back from `dequeue` at t=10: Processing, start stamped. -/
def pA1 : QueuedPrompt :=
  { pA with status := PromptStatus.processing, startedAt := some 10 }

/-- `pC` as it comes back from `dequeue` at t=200. -/
def pC1 : QueuedPrompt :=
  { pC with status := PromptStatus.processing, startedAt := some 200 }

/-- Cap 1, one enqueued request: the smallest state with a dequeuable prompt. -/
def w1Queue : PromptQueue := runOps (PromptQueue.new 1) [QOp.enq pA]

/-- Cap 1: `pC` enqueued at t=100 and dequeued (started) at t=200. -/
def w8Queue : PromptQueue :=
  runOps (PromptQueue.new 1) [QOp.enq pC, QOp.deq 5 200]

/-! ## The internal consistency invariant of `PromptQueue`

`QInv` collects the structural facts that hold in every state reachable by
well-used calls: the two id maps have distinct keys, stored prompts carry
their own key as id, Processing statuses and the `processing` tab→id map
mirror each other, the heap holds exactly the Queued/Cancelled prompts
(with matching scheduling fields), heap ids are distinct, the heap list is
sorted, and the `processing` map respects the concurrency cap. -/
structure QInv (s : PromptQueue) : Prop where
  byIdNodup : (keysA s.promptsById).Nodup
  procNodup : (keysA s.processing).Nodup
  keyId : ∀ k p, lookupA s.promptsById k = some p → p.id = k
  procCons : ∀ k p, lookupA s.promptsById k = some p →
    p.status = PromptStatus.processing → lookupA s.processing p.tabId = some k
  procValid : ∀ t k, lookupA s.processing t = some k →
    ∃ p, lookupA s.promptsById k = some p ∧
      p.status = PromptStatus.processing ∧ p.tabId = t
  heapStored : ∀ h ∈ s.queue, ∃ p, lookupA s.promptsById h.id = some p ∧
    p.tabId = h.tabId ∧ p.priority = h.priority ∧ p.createdAt = h.createdAt ∧
    (p.status = PromptStatus.queued ∨ p.status = PromptStatus.cancelled)
  queuedInHeap : ∀ k p, lookupA s.promptsById k = some p →
    p.status = PromptStatus.queued → ∃ h ∈ s.queue, h.id = k
  heapNodup : (s.queue.map QueuedPrompt.id).Nodup
  heapSorted : s.queue.Pairwise pgeP
  cap : s.processing.length ≤ s.maxConcurrent

/-- What holds of the call-time state `s` when a dequeue run `r` returns a
prompt: its tab held no Processing entry, it was stored Queued, it comes
back marked Processing with its start time stamped, the maps are updated
exactly by the two inserts, and it beats every dequeue-eligible request in
`(priority desc, created_at asc)` order. -/
def dequeueSpecAt (now : Nat) (s : PromptQueue) (r : DeqResult × PromptQueue) :
    Prop :=
  ∀ p, r.1 = DeqResult.got p →
    lookupA s.processing p.tabId = none ∧
    p.status = PromptStatus.processing ∧
    p.startedAt = some now ∧
    r.2.processing = insertA p.tabId p.id s.processing ∧
    r.2.promptsById = insertA p.id p s.promptsById ∧
    (∃ q, lookupA s.promptsById p.id = some q ∧
      q.status = PromptStatus.queued) ∧
    ∀ q ∈ candidateList s, q.priority.rank < p.priority.rank ∨
      (p.priority.rank = q.priority.rank ∧ p.createdAt ≤ q.createdAt)

/-! ## Lemmas about the association-list model -/

theorem lookupA_insertA_self {β : Type} (k : String) (v : β) (l : List (String × β)) :
    lookupA (insertA k v l) k = some v := by
  simp [insertA, lookupA]

theorem lookupA_eraseA_self {β : Type} (k : String) (l : List (String × β)) :
    lookupA (eraseA k l) k = none := by
  induction l with
  | nil => simp [eraseA, lookupA]
  | cons kv t ih =>
    by_cases hk : kv.1 = k
    · rw [eraseA, if_pos hk]
      exact ih
    · rw [eraseA, if_neg hk, lookupA, if_neg hk]
      exact ih

theorem lookupA_eraseA_ne {β : Type} {k k' : String} (l : List (String × β))
    (h : k' ≠ k) : lookupA (eraseA k l) k' = lookupA l k' := by
  induction l with
  | nil => simp [eraseA]
  | cons kv t ih =>
    by_cases hk : kv.1 = k
    · have hne : kv.1 ≠ k' := by rw [hk]; exact Ne.symm h
      rw [eraseA, if_pos hk, lookupA, if_neg hne]
      exact ih
    · rw [eraseA, if_neg hk, lookupA, lookupA]
      by_cases hk' : kv.1 = k'
      · rw [if_pos hk', if_pos hk']
      · rw [if_neg hk', if_neg hk']
        exact ih

theorem lookupA_insertA_ne {β : Type} {k k' : String} (v : β) (l : List (String × β))
    (h : k' ≠ k) : lookupA (insertA k v l) k' = lookupA l k' := by
  have hne : k ≠ k' := Ne.symm h
  rw [insertA, lookupA, if_neg hne]
  exact lookupA_eraseA_ne l h

theorem eraseA_eq_self_of_lookup_none {β : Type} {k : String} {l : List (String × β)}
    (h : lookupA l k = none) : eraseA k l = l := by
  induction l with
  | nil => simp [eraseA]
  | cons kv t ih =>
    by_cases hk : kv.1 = k
    · simp [lookupA, hk] at h
    · simp only [lookupA, hk, if_false] at h
      simp [eraseA, hk, ih h]

theorem eraseA_cons_self {β : Type} (k : String) (v : β) (l : List (String × β)) :
    eraseA k ((k, v) :: l) = eraseA k l := by
  simp [eraseA]

theorem length_eraseA_le {β : Type} (k : String) (l : List (String × β)) :
    (eraseA k l).length ≤ l.length := by
  induction l with
  | nil => simp [eraseA]
  | cons kv t ih =>
    by_cases hk : kv.1 = k
    · simp only [eraseA, hk, if_true]
      exact Nat.le_succ_of_le ih
    · simp only [eraseA, hk, if_false, List.length_cons]
      exact Nat.succ_le_succ ih

theorem length_insertA_le {β : Type} (k : String) (v : β) (l : List (String × β)) :
    (insertA k v l).length ≤ l.length + 1 := by
  simp only [insertA, List.length_cons]
  exact Nat.succ_le_succ (length_eraseA_le k l)

theorem mem_of_lookupA_eq_some {β : Type} {l : List (String × β)} {k : String} {v : β}
    (h : lookupA l k = some v) : (k, v) ∈ l := by
  induction l with
  | nil => simp [lookupA] at h
  | cons kv t ih =>
    by_cases hk : kv.1 = k
    · simp only [lookupA, hk, if_true, Option.some.injEq] at h
      subst h
      rw [← hk]
      exact List.mem_cons_self kv t
    · simp only [lookupA, hk, if_false] at h
      exact List.mem_cons_of_mem kv (ih h)

theorem lookupA_eq_some_of_mem {β : Type} {l : List (String × β)} {k : String} {v : β}
    (hnd : (keysA l).Nodup) (h : (k, v) ∈ l) : lookupA l k = some v := by
  induction l with
  | nil => simp at h
  | cons kv t ih =>
    simp only [keysA, List.map_cons, List.nodup_cons] at hnd
    rcases List.mem_cons.mp h with h | h
    · subst h
      simp [lookupA]
    · have hk : kv.1 ≠ k := by
        intro hk
        exact hnd.1 (hk ▸ (List.mem_map.mpr ⟨(k, v), h, rfl⟩))
      simpa [lookupA, hk] using ih hnd.2 h

theorem not_mem_keysA_eraseA {β : Type} (k : String) (l : List (String × β)) :
    k ∉ keysA (eraseA k l) := by
  induction l with
  | nil => simp [eraseA, keysA]
  | cons kv t ih =>
    by_cases hk : kv.1 = k
    · simpa [eraseA, hk] using ih
    · simp only [eraseA, hk, if_false, keysA, List.map_cons, List.mem_cons]
      rintro (h | h)
      · exact hk h.symm
      · exact ih h

theorem keysA_eraseA_sublist {β : Type} (k : String) (l : List (String × β)) :
    (keysA (eraseA k l)).Sublist (keysA l) := by
  induction l with
  | nil => simp [eraseA, keysA]
  | cons kv t ih =>
    by_cases hk : kv.1 = k
    · rw [eraseA, if_pos hk]
      exact ih.trans (List.sublist_cons_self kv.1 (keysA t))
    · rw [eraseA, if_neg hk]
      exact ih.cons₂ kv.1

theorem nodup_keysA_eraseA {β : Type} (k : String) {l : List (String × β)}
    (h : (keysA l).Nodup) : (keysA (eraseA k l)).Nodup :=
  (keysA_eraseA_sublist k l).nodup h

theorem nodup_keysA_insertA {β : Type} (k : String) (v : β) {l : List (String × β)}
    (h : (keysA l).Nodup) : (keysA (insertA k v l)).Nodup := by
  simp only [insertA, keysA, List.map_cons, List.nodup_cons]
  exact ⟨not_mem_keysA_eraseA k l, nodup_keysA_eraseA k h⟩

theorem eraseA_idem {β : Type} (k : String) (l : List (String × β)) :
    eraseA k (eraseA k l) = eraseA k l := by
  induction l with
  | nil => simp [eraseA]
  | cons kv t ih =>
    by_cases hk : kv.1 = k
    · simp [eraseA, hk, ih]
    · simp [eraseA, hk, ih]

theorem containsKeyA_iff {β : Type} (l : List (String × β)) (k : String) :
    containsKeyA l k = true ↔ ∃ v, lookupA l k = some v := by
  simp [containsKeyA, Option.isSome_iff_exists]

/-! ## Lemmas about the heap order -/

theorem cmpPP_gt_iff (a b : QueuedPrompt) :
    cmpPP a b = .gt ↔ b.priority.rank < a.priority.rank ∨
      (a.priority.rank = b.priority.rank ∧ a.createdAt < b.createdAt) := by
  rcases Nat.lt_trichotomy a.priority.rank b.priority.rank with h | h | h
  · rw [cmpPP, Nat.compare_eq_lt.mpr h]
    have hred : Ordering.lt.then (compare b.createdAt a.createdAt) = Ordering.lt := rfl
    rw [hred]
    constructor
    · intro hgt
      exact absurd hgt (by decide)
    · intro hr
      exfalso
      omega
  · rw [cmpPP, Nat.compare_eq_eq.mpr h]
    have hred : Ordering.eq.then (compare b.createdAt a.createdAt) =
        compare b.createdAt a.createdAt := rfl
    rw [hred, Nat.compare_eq_gt]
    omega
  · rw [cmpPP, Nat.compare_eq_gt.mpr h]
    have hred : Ordering.gt.then (compare b.createdAt a.createdAt) = Ordering.gt := rfl
    rw [hred]
    simp only [true_iff]
    omega

theorem cmpPP_lt_iff (a b : QueuedPrompt) :
    cmpPP a b = .lt ↔ a.priority.rank < b.priority.rank ∨
      (a.priority.rank = b.priority.rank ∧ b.createdAt < a.createdAt) := by
  rcases Nat.lt_trichotomy a.priority.rank b.priority.rank with h | h | h
  · rw [cmpPP, Nat.compare_eq_lt.mpr h]
    have hred : Ordering.lt.then (compare b.createdAt a.createdAt) = Ordering.lt := rfl
    rw [hred]
    simp only [true_iff]
    omega
  · rw [cmpPP, Nat.compare_eq_eq.mpr h]
    have hred : Ordering.eq.then (compare b.createdAt a.createdAt) =
        compare b.createdAt a.createdAt := rfl
    rw [hred, Nat.compare_eq_lt]
    omega
  · rw [cmpPP, Nat.compare_eq_gt.mpr h]
    have hred : Ordering.gt.then (compare b.createdAt a.createdAt) = Ordering.gt := rfl
    rw [hred]
    constructor
    · intro hlt
      exact absurd hlt (by decide)
    · intro hr
      exfalso
      omega

theorem pgeP_iff (a b : QueuedPrompt) :
    pgeP a b ↔ b.priority.rank < a.priority.rank ∨
      (a.priority.rank = b.priority.rank ∧ a.createdAt ≤ b.createdAt) := by
  rw [pgeP, Ne, cmpPP_lt_iff]
  omega

theorem pgeP_refl (a : QueuedPrompt) : pgeP a a :=
  (pgeP_iff a a).mpr (Or.inr ⟨rfl, Nat.le_refl _⟩)

theorem pgeP_trans {a b c : QueuedPrompt} (h1 : pgeP a b) (h2 : pgeP b c) :
    pgeP a c := by
  rw [pgeP_iff] at h1 h2 ⊢
  omega

theorem pgeP_of_not_gt {a b : QueuedPrompt} (h : cmpPP a b ≠ .gt) : pgeP b a := by
  rw [Ne, cmpPP_gt_iff] at h
  rw [pgeP_iff]
  omega

theorem pgeP_of_gt {a b : QueuedPrompt} (h : cmpPP a b = .gt) : pgeP a b := by
  rw [cmpPP_gt_iff] at h
  rw [pgeP_iff]
  omega

theorem mem_insertHeap {a p : QueuedPrompt} {l : List QueuedPrompt} :
    a ∈ insertHeap p l ↔ a = p ∨ a ∈ l := by
  induction l with
  | nil => simp [insertHeap]
  | cons h t ih =>
    by_cases hgt : cmpPP p h = .gt
    · rw [insertHeap, if_pos hgt]
      simp [or_comm, or_assoc, or_left_comm]
    · rw [insertHeap, if_neg hgt]
      simp only [List.mem_cons, ih]
      tauto

theorem perm_insertHeap (p : QueuedPrompt) (l : List QueuedPrompt) :
    (insertHeap p l).Perm (p :: l) := by
  induction l with
  | nil => exact List.Perm.refl _
  | cons h t ih =>
    by_cases hgt : cmpPP p h = .gt
    · rw [insertHeap, if_pos hgt]
    · rw [insertHeap, if_neg hgt]
      exact (ih.cons h).trans (List.Perm.swap p h t)

theorem pairwise_insertHeap {p : QueuedPrompt} {l : List QueuedPrompt}
    (hl : l.Pairwise pgeP) : (insertHeap p l).Pairwise pgeP := by
  induction l with
  | nil => simp [insertHeap]
  | cons h t ih =>
    rcases List.pairwise_cons.mp hl with ⟨hh, ht⟩
    by_cases hgt : cmpPP p h = .gt
    · rw [insertHeap, if_pos hgt]
      refine List.pairwise_cons.mpr ⟨?_, hl⟩
      intro x hx
      rcases List.mem_cons.mp hx with hx | hx
      · subst hx
        exact pgeP_of_gt hgt
      · exact pgeP_trans (pgeP_of_gt hgt) (hh x hx)
    · rw [insertHeap, if_neg hgt]
      refine List.pairwise_cons.mpr ⟨?_, ih ht⟩
      intro x hx
      rcases mem_insertHeap.mp hx with hx | hx
      · subst hx
        exact pgeP_of_not_gt hgt
      · exact hh x hx

theorem head_pge_of_sorted {h : QueuedPrompt} {t : List QueuedPrompt}
    (hs : (h :: t).Pairwise pgeP) : ∀ x ∈ h :: t, pgeP h x := by
  intro x hx
  rcases List.mem_cons.mp hx with hx | hx
  · subst hx
    exact pgeP_refl _
  · exact (List.pairwise_cons.mp hs).1 x hx

/-! ## Preservation of the invariant -/

theorem lookupA_eq_none_of_containsKeyA_false {β : Type} {l : List (String × β)}
    {k : String} (h : containsKeyA l k = false) : lookupA l k = none := by
  rw [containsKeyA] at h
  exact Option.not_isSome_iff_eq_none.mp (by simp [h])

theorem qinv_new (maxConcurrent : Nat) : QInv (PromptQueue.new maxConcurrent) := by
  refine ⟨?_, ?_, ?_, ?_, ?_, ?_, ?_, ?_, ?_, ?_⟩ <;>
    simp [PromptQueue.new, keysA, lookupA]

theorem enqueue_promptsById (p : QueuedPrompt) (s : PromptQueue) :
    (s.enqueue p).2.promptsById = insertA p.id p s.promptsById := rfl

theorem enqueue_processing (p : QueuedPrompt) (s : PromptQueue) :
    (s.enqueue p).2.processing = s.processing := rfl

theorem enqueue_queue (p : QueuedPrompt) (s : PromptQueue) :
    (s.enqueue p).2.queue = insertHeap p s.queue := rfl

theorem enqueue_maxConcurrent (p : QueuedPrompt) (s : PromptQueue) :
    (s.enqueue p).2.maxConcurrent = s.maxConcurrent := rfl

theorem qinv_enqueue {s : PromptQueue} {p : QueuedPrompt} (hInv : QInv s)
    (hst : p.status = PromptStatus.queued)
    (hfresh : lookupA s.promptsById p.id = none) : QInv (s.enqueue p).2 := by
  have hmem : ∀ h ∈ s.queue, h.id ≠ p.id := by
    intro h hh heq
    rcases hInv.heapStored h hh with ⟨q, hq, -⟩
    rw [heq, hfresh] at hq
    cases hq
  constructor
  case byIdNodup =>
    rw [enqueue_promptsById]
    exact nodup_keysA_insertA _ _ hInv.byIdNodup
  case procNodup =>
    rw [enqueue_processing]
    exact hInv.procNodup
  case keyId =>
    intro k q hq
    rw [enqueue_promptsById] at hq
    by_cases hk : k = p.id
    · subst hk
      rw [lookupA_insertA_self] at hq
      cases hq
      rfl
    · rw [lookupA_insertA_ne _ _ hk] at hq
      exact hInv.keyId k q hq
  case procCons =>
    intro k q hq hqs
    rw [enqueue_promptsById] at hq
    rw [enqueue_processing]
    by_cases hk : k = p.id
    · subst hk
      rw [lookupA_insertA_self] at hq
      cases hq
      rw [hst] at hqs
      cases hqs
    · rw [lookupA_insertA_ne _ _ hk] at hq
      exact hInv.procCons k q hq hqs
  case procValid =>
    intro t k hk
    rw [enqueue_processing] at hk
    rcases hInv.procValid t k hk with ⟨q, hq, hqs, hqt⟩
    have hne : k ≠ p.id := by
      intro he
      rw [he, hfresh] at hq
      cases hq
    refine ⟨q, ?_, hqs, hqt⟩
    rw [enqueue_promptsById, lookupA_insertA_ne _ _ hne]
    exact hq
  case heapStored =>
    intro h hh
    rw [enqueue_queue] at hh
    rw [enqueue_promptsById]
    rcases mem_insertHeap.mp hh with hh | hh
    · rw [hh]
      exact ⟨p, lookupA_insertA_self _ _ _, rfl, rfl, rfl, Or.inl hst⟩
    · rcases hInv.heapStored h hh with ⟨q, hq, h1, h2, h3, h4⟩
      exact ⟨q, by rw [lookupA_insertA_ne _ _ (hmem h hh)]; exact hq, h1, h2, h3, h4⟩
  case queuedInHeap =>
    intro k q hq hqs
    rw [enqueue_promptsById] at hq
    by_cases hk : k = p.id
    · subst hk
      exact ⟨p, by rw [enqueue_queue]; exact mem_insertHeap.mpr (Or.inl rfl), rfl⟩
    · rw [lookupA_insertA_ne _ _ hk] at hq
      rcases hInv.queuedInHeap k q hq hqs with ⟨h, hh, hid⟩
      exact ⟨h, by rw [enqueue_queue]; exact mem_insertHeap.mpr (Or.inr hh), hid⟩
  case heapNodup =>
    rw [enqueue_queue]
    have hperm : ((insertHeap p s.queue).map QueuedPrompt.id).Perm
        (p.id :: s.queue.map QueuedPrompt.id) := (perm_insertHeap p s.queue).map _
    rw [hperm.nodup_iff, List.nodup_cons]
    refine ⟨?_, hInv.heapNodup⟩
    intro hcon
    rcases List.mem_map.mp hcon with ⟨h, hh, hid⟩
    exact hmem h hh hid
  case heapSorted =>
    rw [enqueue_queue]
    exact pairwise_insertHeap hInv.heapSorted
  case cap =>
    rw [enqueue_processing, enqueue_maxConcurrent]
    exact hInv.cap

theorem qinv_remove_processing {s : PromptQueue} {p : QueuedPrompt} {pid : String}
    (hInv : QInv s) (hp : lookupA s.promptsById pid = some p)
    (hps : p.status = PromptStatus.processing)
    (byTab : List (String × List String)) (hist : List QueuedPrompt)
    (tc tf tw tpm : Nat) :
    QInv { s with
      promptsById := eraseA pid s.promptsById
      processing := eraseA p.tabId s.processing
      promptsByTab := byTab
      completed := hist
      totalCompleted := tc
      totalFailed := tf
      totalWaitMs := tw
      totalProcessMs := tpm } := by
  have hpk : lookupA s.processing p.tabId = some pid := hInv.procCons pid p hp hps
  constructor
  all_goals dsimp only
  case byIdNodup => exact nodup_keysA_eraseA _ hInv.byIdNodup
  case procNodup => exact nodup_keysA_eraseA _ hInv.procNodup
  case keyId =>
    intro k q hq
    by_cases hk : k = pid
    · subst hk
      rw [lookupA_eraseA_self] at hq
      cases hq
    · rw [lookupA_eraseA_ne _ hk] at hq
      exact hInv.keyId k q hq
  case procCons =>
    intro k q hq hqs
    by_cases hk : k = pid
    · subst hk
      rw [lookupA_eraseA_self] at hq
      cases hq
    · rw [lookupA_eraseA_ne _ hk] at hq
      have hold := hInv.procCons k q hq hqs
      have hne : q.tabId ≠ p.tabId := by
        intro he
        rw [he, hpk] at hold
        cases hold
        exact hk rfl
      rw [lookupA_eraseA_ne _ hne]
      exact hold
  case procValid =>
    intro t k hk
    by_cases ht : t = p.tabId
    · subst ht
      rw [lookupA_eraseA_self] at hk
      cases hk
    · rw [lookupA_eraseA_ne _ ht] at hk
      rcases hInv.procValid t k hk with ⟨q, hq, hqs, hqt⟩
      have hne : k ≠ pid := by
        intro he
        rw [he, hp] at hq
        cases hq
        exact ht hqt.symm
      refine ⟨q, ?_, hqs, hqt⟩
      rw [lookupA_eraseA_ne _ hne]
      exact hq
  case heapStored =>
    intro h hh
    rcases hInv.heapStored h hh with ⟨q, hq, h1, h2, h3, h4⟩
    have hne : h.id ≠ pid := by
      intro he
      rw [he, hp] at hq
      cases hq
      rcases h4 with h4 | h4 <;> rw [hps] at h4 <;> cases h4
    refine ⟨q, ?_, h1, h2, h3, h4⟩
    rw [lookupA_eraseA_ne _ hne]
    exact hq
  case queuedInHeap =>
    intro k q hq hqs
    by_cases hk : k = pid
    · subst hk
      rw [lookupA_eraseA_self] at hq
      cases hq
    · rw [lookupA_eraseA_ne _ hk] at hq
      exact hInv.queuedInHeap k q hq hqs
  case heapNodup => exact hInv.heapNodup
  case heapSorted => exact hInv.heapSorted
  case cap => exact Nat.le_trans (length_eraseA_le _ _) hInv.cap

theorem qinv_complete {s : PromptQueue} {pid : String} {t : String}
    (hInv : QInv s) (hproc : lookupA s.processing t = some pid)
    (resp : String) (now : Nat) : QInv (s.complete pid resp now) := by
  rcases hInv.procValid t pid hproc with ⟨p, hp, hps, hpt⟩
  simp only [PromptQueue.complete, hp]
  exact qinv_remove_processing hInv hp hps _ _ _ _ _ _

theorem qinv_fail {s : PromptQueue} {pid : String} {t : String}
    (hInv : QInv s) (hproc : lookupA s.processing t = some pid)
    (err : String) (now : Nat) : QInv (s.fail pid err now) := by
  rcases hInv.procValid t pid hproc with ⟨p, hp, hps, hpt⟩
  simp only [PromptQueue.fail, hp]
  exact qinv_remove_processing hInv hp hps _ _ _ _ _ _

theorem qinv_cancel_insert {s : PromptQueue} {p : QueuedPrompt} {pid : String}
    (hInv : QInv s) (hp : lookupA s.promptsById pid = some p)
    (hq : p.status = PromptStatus.queued) :
    QInv { s with
      promptsById :=
        insertA pid { p with status := PromptStatus.cancelled } s.promptsById } := by
  constructor
  all_goals dsimp only
  case byIdNodup => exact nodup_keysA_insertA _ _ hInv.byIdNodup
  case procNodup => exact hInv.procNodup
  case keyId =>
    intro k q hkq
    by_cases hk : k = pid
    · subst hk
      rw [lookupA_insertA_self] at hkq
      cases hkq
      exact hInv.keyId _ p hp
    · rw [lookupA_insertA_ne _ _ hk] at hkq
      exact hInv.keyId k q hkq
  case procCons =>
    intro k q hkq hqs
    by_cases hk : k = pid
    · subst hk
      rw [lookupA_insertA_self] at hkq
      cases hkq
      cases hqs
    · rw [lookupA_insertA_ne _ _ hk] at hkq
      exact hInv.procCons k q hkq hqs
  case procValid =>
    intro t k hk
    rcases hInv.procValid t k hk with ⟨q, hkq, hqs, hqt⟩
    have hne : k ≠ pid := by
      intro he
      rw [he, hp] at hkq
      cases hkq
      rw [hq] at hqs
      cases hqs
    refine ⟨q, ?_, hqs, hqt⟩
    rw [lookupA_insertA_ne _ _ hne]
    exact hkq
  case heapStored =>
    intro h hh
    rcases hInv.heapStored h hh with ⟨q, hkq, h1, h2, h3, h4⟩
    by_cases hk : h.id = pid
    · rw [hk, hp] at hkq
      cases hkq
      refine ⟨{ p with status := PromptStatus.cancelled }, ?_, h1, h2, h3, Or.inr rfl⟩
      rw [hk]
      exact lookupA_insertA_self _ _ _
    · refine ⟨q, ?_, h1, h2, h3, h4⟩
      rw [lookupA_insertA_ne _ _ hk]
      exact hkq
  case queuedInHeap =>
    intro k q hkq hqs
    by_cases hk : k = pid
    · subst hk
      rw [lookupA_insertA_self] at hkq
      cases hkq
      cases hqs
    · rw [lookupA_insertA_ne _ _ hk] at hkq
      exact hInv.queuedInHeap k q hkq hqs
  case heapNodup => exact hInv.heapNodup
  case heapSorted => exact hInv.heapSorted
  case cap => exact hInv.cap

theorem qinv_cancel {s : PromptQueue} (pid : String) (hInv : QInv s) :
    QInv (s.cancel pid).2 := by
  rcases hp : lookupA s.promptsById pid with _ | p
  · simp only [PromptQueue.cancel, hp]
    exact hInv
  · by_cases hq : p.status = PromptStatus.queued
    · simp only [PromptQueue.cancel, hp, hq, if_pos]
      exact qinv_cancel_insert hInv hp hq
    · simp only [PromptQueue.cancel, hp, hq, if_neg, if_false]
      exact hInv

theorem qinv_mark {s : PromptQueue} {h : QueuedPrompt} {rest : List QueuedPrompt}
    (hInv : QInv s) (hq : s.queue = h :: rest)
    (hfree : lookupA s.processing h.tabId = none)
    (hstq : ∃ q, lookupA s.promptsById h.id = some q ∧
      q.status = PromptStatus.queued)
    (hlen : s.processing.length < s.maxConcurrent) (now : Nat) :
    QInv { s with
      queue := rest
      promptsById :=
        insertA h.id
          { h with status := PromptStatus.processing, startedAt := some now }
          s.promptsById
      processing := insertA h.tabId h.id s.processing } := by
  rcases hstq with ⟨q0, hq0, hq0s⟩
  have hidsNodup : ((h :: rest).map QueuedPrompt.id).Nodup := by
    rw [← hq]
    exact hInv.heapNodup
  have hidNotRest : ∀ h' ∈ rest, h'.id ≠ h.id := by
    intro h' hh' he
    have := (List.nodup_cons.mp hidsNodup).1
    exact this (he ▸ List.mem_map.mpr ⟨h', hh', rfl⟩)
  constructor
  all_goals dsimp only
  case byIdNodup => exact nodup_keysA_insertA _ _ hInv.byIdNodup
  case procNodup => exact nodup_keysA_insertA _ _ hInv.procNodup
  case keyId =>
    intro k q hkq
    by_cases hk : k = h.id
    · subst hk
      rw [lookupA_insertA_self] at hkq
      cases hkq
      rfl
    · rw [lookupA_insertA_ne _ _ hk] at hkq
      exact hInv.keyId k q hkq
  case procCons =>
    intro k q hkq hqs
    by_cases hk : k = h.id
    · subst hk
      rw [lookupA_insertA_self] at hkq
      cases hkq
      exact lookupA_insertA_self _ _ _
    · rw [lookupA_insertA_ne _ _ hk] at hkq
      have hold := hInv.procCons k q hkq hqs
      have hne : q.tabId ≠ h.tabId := by
        intro he
        rw [he, hfree] at hold
        cases hold
      rw [lookupA_insertA_ne _ _ hne]
      exact hold
  case procValid =>
    intro t k hk
    by_cases ht : t = h.tabId
    · subst ht
      rw [lookupA_insertA_self] at hk
      cases hk
      exact ⟨_, lookupA_insertA_self _ _ _, rfl, rfl⟩
    · rw [lookupA_insertA_ne _ _ ht] at hk
      rcases hInv.procValid t k hk with ⟨q, hkq, hqs, hqt⟩
      have hne : k ≠ h.id := by
        intro he
        rw [he, hq0] at hkq
        cases hkq
        rw [hq0s] at hqs
        cases hqs
      refine ⟨q, ?_, hqs, hqt⟩
      rw [lookupA_insertA_ne _ _ hne]
      exact hkq
  case heapStored =>
    intro h' hh'
    have hmem : h' ∈ s.queue := by
      rw [hq]
      exact List.mem_cons_of_mem h hh'
    rcases hInv.heapStored h' hmem with ⟨q, hkq, h1, h2, h3, h4⟩
    refine ⟨q, ?_, h1, h2, h3, h4⟩
    rw [lookupA_insertA_ne _ _ (hidNotRest h' hh')]
    exact hkq
  case queuedInHeap =>
    intro k q hkq hqs
    by_cases hk : k = h.id
    · subst hk
      rw [lookupA_insertA_self] at hkq
      cases hkq
      cases hqs
    · rw [lookupA_insertA_ne _ _ hk] at hkq
      rcases hInv.queuedInHeap k q hkq hqs with ⟨hc, hcmem, hcid⟩
      rw [hq] at hcmem
      rcases List.mem_cons.mp hcmem with he | he
      · rw [he] at hcid
        exact absurd hcid.symm hk
      · exact ⟨hc, he, hcid⟩
  case heapNodup => exact (List.nodup_cons.mp hidsNodup).2
  case heapSorted =>
    have := hInv.heapSorted
    rw [hq] at this
    exact (List.pairwise_cons.mp this).2
  case cap => exact Nat.le_trans (length_insertA_le _ _ _) hlen

theorem qinv_repush {s : PromptQueue} {h : QueuedPrompt} {rest : List QueuedPrompt}
    (hInv : QInv s) (hq : s.queue = h :: rest) :
    QInv { s with queue := insertHeap h rest } := by
  have hsorted : (h :: rest).Pairwise pgeP := by
    rw [← hq]
    exact hInv.heapSorted
  constructor
  all_goals dsimp only
  case byIdNodup => exact hInv.byIdNodup
  case procNodup => exact hInv.procNodup
  case keyId => exact hInv.keyId
  case procCons => exact hInv.procCons
  case procValid => exact hInv.procValid
  case heapStored =>
    intro h' hh'
    refine hInv.heapStored h' ?_
    rw [hq]
    rcases mem_insertHeap.mp hh' with he | he
    · rw [he]
      exact List.mem_cons_self h rest
    · exact List.mem_cons_of_mem h he
  case queuedInHeap =>
    intro k q hkq hqs
    rcases hInv.queuedInHeap k q hkq hqs with ⟨hc, hcmem, hcid⟩
    rw [hq] at hcmem
    rcases List.mem_cons.mp hcmem with he | he
    · exact ⟨hc, mem_insertHeap.mpr (Or.inl he), hcid⟩
    · exact ⟨hc, mem_insertHeap.mpr (Or.inr he), hcid⟩
  case heapNodup =>
    have hperm : ((insertHeap h rest).map QueuedPrompt.id).Perm
        ((h :: rest).map QueuedPrompt.id) := (perm_insertHeap h rest).map _
    rw [hperm.nodup_iff, ← hq]
    exact hInv.heapNodup
  case heapSorted => exact pairwise_insertHeap (List.pairwise_cons.mp hsorted).2
  case cap => exact hInv.cap

theorem qinv_drop {s : PromptQueue} {h : QueuedPrompt} {rest : List QueuedPrompt}
    (hInv : QInv s) (hq : s.queue = h :: rest)
    (hcanex : ∃ st, lookupA s.promptsById h.id = some st ∧
      st.status = PromptStatus.cancelled) :
    QInv { s with queue := rest } := by
  rcases hcanex with ⟨st, hst, hstc⟩
  have hsorted : (h :: rest).Pairwise pgeP := by
    rw [← hq]
    exact hInv.heapSorted
  have hnd : ((h :: rest).map QueuedPrompt.id).Nodup := by
    rw [← hq]
    exact hInv.heapNodup
  constructor
  all_goals dsimp only
  case byIdNodup => exact hInv.byIdNodup
  case procNodup => exact hInv.procNodup
  case keyId => exact hInv.keyId
  case procCons => exact hInv.procCons
  case procValid => exact hInv.procValid
  case heapStored =>
    intro h' hh'
    refine hInv.heapStored h' ?_
    rw [hq]
    exact List.mem_cons_of_mem h hh'
  case queuedInHeap =>
    intro k q hkq hqs
    rcases hInv.queuedInHeap k q hkq hqs with ⟨hc, hcmem, hcid⟩
    rw [hq] at hcmem
    rcases List.mem_cons.mp hcmem with he | he
    · exfalso
      rw [he] at hcid
      rw [hcid, hkq] at hst
      cases hst
      rw [hqs] at hstc
      cases hstc
    · exact ⟨hc, he, hcid⟩
  case heapNodup => exact (List.nodup_cons.mp hnd).2
  case heapSorted => exact (List.pairwise_cons.mp hsorted).2
  case cap => exact hInv.cap

theorem candidate_le_head {s : PromptQueue} {h : QueuedPrompt}
    {rest : List QueuedPrompt} (hInv : QInv s) (hq : s.queue = h :: rest) :
    ∀ q ∈ candidateList s, q.priority.rank < h.priority.rank ∨
      (h.priority.rank = q.priority.rank ∧ h.createdAt ≤ q.createdAt) := by
  intro q hqmem
  rcases List.mem_map.mp hqmem with ⟨kv, hkvf, hkv2⟩
  rcases List.mem_filter.mp hkvf with ⟨hkvmem, hpred⟩
  rw [Bool.and_eq_true] at hpred
  have hqs : kv.2.status = PromptStatus.queued := by
    have hb := hpred.1
    rwa [beq_iff_eq] at hb
  have hlk : lookupA s.promptsById kv.1 = some kv.2 :=
    lookupA_eq_some_of_mem hInv.byIdNodup hkvmem
  rcases hInv.queuedInHeap kv.1 kv.2 hlk hqs with ⟨hc, hcmem, hcid⟩
  rcases hInv.heapStored hc hcmem with ⟨q', hq', h1, h2, h3, h4⟩
  rw [hcid, hlk] at hq'
  cases hq'
  have hcmem2 : hc ∈ h :: rest := by
    rw [← hq]
    exact hcmem
  have hpge : pgeP h hc := by
    have hs := hInv.heapSorted
    rw [hq] at hs
    exact head_pge_of_sorted hs hc hcmem2
  have harith := (pgeP_iff h hc).mp hpge
  rw [← hkv2, h2, h3]
  exact harith

theorem dequeueLoop_spec (now : Nat) (fuel : Nat) :
    ∀ s : PromptQueue, QInv s → s.processing.length < s.maxConcurrent →
      QInv (dequeueLoop now fuel s).2 ∧
        dequeueSpecAt now s (dequeueLoop now fuel s) := by
  induction fuel with
  | zero =>
    intro s hInv hlen
    refine ⟨hInv, ?_⟩
    intro p hp
    simp [dequeueLoop] at hp
  | succ fuel ih =>
    intro s hInv hlen
    rcases hq : s.queue with _ | ⟨h, rest⟩
    · have hstep : dequeueLoop now (fuel + 1) s = (DeqResult.empty, s) := by
        simp only [dequeueLoop, hq]
      rw [hstep]
      refine ⟨hInv, ?_⟩
      intro p hp
      cases hp
    · by_cases hbusy : containsKeyA s.processing h.tabId = true
      · have hstep : dequeueLoop now (fuel + 1) s =
            dequeueLoop now fuel { s with queue := insertHeap h rest } := by
          simp only [dequeueLoop, hq]
          rw [if_pos hbusy]
        have hrec := ih { s with queue := insertHeap h rest }
          (qinv_repush hInv hq) hlen
        rw [hstep]
        exact ⟨hrec.1, hrec.2⟩
      · have hfree : lookupA s.processing h.tabId = none := by
          refine lookupA_eq_none_of_containsKeyA_false ?_
          rwa [Bool.not_eq_true] at hbusy
        have hmem : h ∈ s.queue := by
          rw [hq]
          exact List.mem_cons_self h rest
        rcases hInv.heapStored h hmem with ⟨q0, hq0, g1, g2, g3, g4⟩
        rcases hst : lookupA s.promptsById h.id with _ | stored
        · rw [hst] at hq0
          cases hq0
        · rw [hst] at hq0
          cases hq0
          by_cases hcan : q0.status = PromptStatus.cancelled
          · have hstep : dequeueLoop now (fuel + 1) s =
                dequeueLoop now fuel { s with queue := rest } := by
              simp only [dequeueLoop, hq]
              rw [if_neg hbusy]
              simp only [hst]
              rw [if_pos hcan]
            have hrec := ih { s with queue := rest }
              (qinv_drop hInv hq ⟨q0, hst, hcan⟩) hlen
            rw [hstep]
            exact ⟨hrec.1, hrec.2⟩
          · have hqd : q0.status = PromptStatus.queued := by
              rcases g4 with g4 | g4
              · exact g4
              · exact absurd g4 hcan
            have hstep : dequeueLoop now (fuel + 1) s = markPrompt now h rest s := by
              simp only [dequeueLoop, hq]
              rw [if_neg hbusy]
              simp only [hst]
              rw [if_neg hcan]
            rw [hstep]
            constructor
            · simp only [markPrompt]
              exact qinv_mark hInv hq hfree ⟨q0, hst, hqd⟩ hlen now
            · intro p hp
              simp only [markPrompt] at hp
              cases hp
              dsimp only
              exact ⟨hfree, rfl, rfl, rfl, rfl, ⟨q0, hst, hqd⟩,
                candidate_le_head hInv hq⟩

theorem dequeue_spec {s : PromptQueue} (hInv : QInv s) (fuel now : Nat) :
    QInv (s.dequeue fuel now).2 ∧ dequeueSpecAt now s (s.dequeue fuel now) := by
  by_cases hge : s.processing.length ≥ s.maxConcurrent
  · rw [PromptQueue.dequeue, if_pos hge]
    refine ⟨hInv, ?_⟩
    intro p hp
    cases hp
  · rw [PromptQueue.dequeue, if_neg hge]
    exact dequeueLoop_spec now fuel s hInv (Nat.lt_of_not_le hge)

theorem dequeueLoop_cap (now : Nat) (fuel : Nat) :
    ∀ s : PromptQueue, s.processing.length < s.maxConcurrent →
      (dequeueLoop now fuel s).2.processing.length ≤
        (dequeueLoop now fuel s).2.maxConcurrent := by
  induction fuel with
  | zero =>
    intro s hlen
    exact Nat.le_of_lt hlen
  | succ fuel ih =>
    intro s hlen
    rcases hq : s.queue with _ | ⟨h, rest⟩
    · have hstep : dequeueLoop now (fuel + 1) s = (DeqResult.empty, s) := by
        simp only [dequeueLoop, hq]
      rw [hstep]
      exact Nat.le_of_lt hlen
    · by_cases hbusy : containsKeyA s.processing h.tabId = true
      · have hstep : dequeueLoop now (fuel + 1) s =
            dequeueLoop now fuel { s with queue := insertHeap h rest } := by
          simp only [dequeueLoop, hq]
          rw [if_pos hbusy]
        rw [hstep]
        exact ih _ hlen
      · rcases hst : lookupA s.promptsById h.id with _ | stored
        · have hstep : dequeueLoop now (fuel + 1) s = markPrompt now h rest s := by
            simp only [dequeueLoop, hq]
            rw [if_neg hbusy]
            simp only [hst]
          rw [hstep]
          simp only [markPrompt]
          exact Nat.le_trans (length_insertA_le _ _ _) hlen
        · by_cases hcan : stored.status = PromptStatus.cancelled
          · have hstep : dequeueLoop now (fuel + 1) s =
                dequeueLoop now fuel { s with queue := rest } := by
              simp only [dequeueLoop, hq]
              rw [if_neg hbusy]
              simp only [hst]
              rw [if_pos hcan]
            rw [hstep]
            exact ih _ hlen
          · have hstep : dequeueLoop now (fuel + 1) s = markPrompt now h rest s := by
              simp only [dequeueLoop, hq]
              rw [if_neg hbusy]
              simp only [hst]
              rw [if_neg hcan]
            rw [hstep]
            simp only [markPrompt]
            exact Nat.le_trans (length_insertA_le _ _ _) hlen

theorem applyOp_cap (s : PromptQueue) (op : QOp)
    (hcap : s.processing.length ≤ s.maxConcurrent) :
    (applyOp s op).processing.length ≤ (applyOp s op).maxConcurrent := by
  cases op with
  | enq p =>
    rw [applyOp, enqueue_processing, enqueue_maxConcurrent]
    exact hcap
  | deq fuel now =>
    rw [applyOp]
    by_cases hge : s.processing.length ≥ s.maxConcurrent
    · rw [PromptQueue.dequeue, if_pos hge]
      exact hcap
    · rw [PromptQueue.dequeue, if_neg hge]
      exact dequeueLoop_cap now fuel s (Nat.lt_of_not_le hge)
  | comp pid resp now =>
    rw [applyOp]
    rcases hp : lookupA s.promptsById pid with _ | p
    · simp only [PromptQueue.complete, hp]
      exact hcap
    · simp only [PromptQueue.complete, hp]
      exact Nat.le_trans (length_eraseA_le _ _) hcap
  | fl pid err now =>
    rw [applyOp]
    rcases hp : lookupA s.promptsById pid with _ | p
    · simp only [PromptQueue.fail, hp]
      exact hcap
    · simp only [PromptQueue.fail, hp]
      exact Nat.le_trans (length_eraseA_le _ _) hcap
  | cncl pid =>
    rw [applyOp]
    rcases hp : lookupA s.promptsById pid with _ | p
    · simp only [PromptQueue.cancel, hp]
      exact hcap
    · by_cases hq : p.status = PromptStatus.queued
      · simp only [PromptQueue.cancel, hp, hq, if_pos]
        exact hcap
      · simp only [PromptQueue.cancel, hp, hq, if_neg, if_false]
        exact hcap

theorem runOps_cap (ops : List QOp) :
    ∀ s : PromptQueue, s.processing.length ≤ s.maxConcurrent →
      (runOps s ops).processing.length ≤ (runOps s ops).maxConcurrent := by
  induction ops with
  | nil =>
    intro s hcap
    exact hcap
  | cons op ops ih =>
    intro s hcap
    exact ih (applyOp s op) (applyOp_cap s op hcap)

theorem qinv_applyOp {s : PromptQueue} {op : QOp} (hInv : QInv s)
    (hwf : wfOp s op = true) : QInv (applyOp s op) := by
  cases op with
  | enq p =>
    rw [wfOp, Bool.and_eq_true, beq_iff_eq, Option.isNone_iff_eq_none] at hwf
    exact qinv_enqueue hInv hwf.1 hwf.2
  | deq fuel now => exact (dequeue_spec hInv fuel now).1
  | comp pid resp now =>
    rw [wfOp, List.any_eq_true] at hwf
    rcases hwf with ⟨kv, hkv, hkvid⟩
    rw [beq_iff_eq] at hkvid
    have hmem : (kv.1, pid) ∈ s.processing := by
      rw [← hkvid]
      exact hkv
    exact qinv_complete hInv (lookupA_eq_some_of_mem hInv.procNodup hmem) resp now
  | fl pid err now =>
    rw [wfOp, List.any_eq_true] at hwf
    rcases hwf with ⟨kv, hkv, hkvid⟩
    rw [beq_iff_eq] at hkvid
    have hmem : (kv.1, pid) ∈ s.processing := by
      rw [← hkvid]
      exact hkv
    exact qinv_fail hInv (lookupA_eq_some_of_mem hInv.procNodup hmem) err now
  | cncl pid => exact qinv_cancel pid hInv

theorem qinv_runOps (ops : List QOp) :
    ∀ s : PromptQueue, QInv s → wfTrace s ops = true → QInv (runOps s ops) := by
  induction ops with
  | nil =>
    intro s hInv _
    exact hInv
  | cons op ops ih =>
    intro s hInv hwf
    rw [wfTrace, Bool.and_eq_true] at hwf
    exact ih (applyOp s op) (qinv_applyOp hInv hwf.1) hwf.2

theorem lookupA_eq_some_of_mem_pair {β : Type} {l : List (String × β)}
    {kv : String × β} (hnd : (keysA l).Nodup) (h : kv ∈ l) :
    lookupA l kv.1 = some kv.2 := by
  have hkv : (kv.1, kv.2) ∈ l := by
    rw [Prod.mk.eta]
    exact h
  exact lookupA_eq_some_of_mem hnd hkv

theorem assoc_pairs_length_le_one {β : Type} {m : List (String × β)}
    (hnd : (keysA m).Nodup) (hkey : ∀ a ∈ m, ∀ b ∈ m, a.1 = b.1) :
    m.length ≤ 1 := by
  match m with
  | [] => simp
  | [x] => simp
  | x :: y :: t =>
    exfalso
    have hxy : x.1 = y.1 :=
      hkey x (List.mem_cons_self _ _) y
        (List.mem_cons_of_mem _ (List.mem_cons_self _ _))
    have := (List.nodup_cons.mp hnd).1
    exact this (List.mem_map.mpr ⟨y,
      List.mem_cons_self _ _, hxy.symm⟩)

theorem countTabProcessing_le_one {s : PromptQueue} (hInv : QInv s)
    (t : String) : countTabProcessing s t ≤ 1 := by
  rw [countTabProcessing]
  set flt := s.promptsById.filter fun kv =>
    kv.2.status == PromptStatus.processing && kv.2.tabId == t with hflt
  have hsub : flt.Sublist s.promptsById := List.filter_sublist _
  have hnd : (keysA flt).Nodup := (hsub.map Prod.fst).nodup hInv.byIdNodup
  refine assoc_pairs_length_le_one hnd ?_
  intro a ha b hb
  rw [hflt, List.mem_filter, Bool.and_eq_true, beq_iff_eq, beq_iff_eq] at ha hb
  have hla : lookupA s.processing t = some a.1 := by
    have := hInv.procCons a.1 a.2
      (lookupA_eq_some_of_mem_pair hInv.byIdNodup ha.1) ha.2.1
    rwa [ha.2.2] at this
  have hlb : lookupA s.processing t = some b.1 := by
    have := hInv.procCons b.1 b.2
      (lookupA_eq_some_of_mem_pair hInv.byIdNodup hb.1) hb.2.1
    rwa [hb.2.2] at this
  rw [hla] at hlb
  exact Option.some.inj hlb

theorem countTabProcessing_eq_zero_of_free {s : PromptQueue} (hInv : QInv s)
    {t : String} (hfree : lookupA s.processing t = none) :
    countTabProcessing s t = 0 := by
  rw [countTabProcessing, List.length_eq_zero, List.filter_eq_nil_iff]
  intro kv hkv hpred
  rw [Bool.and_eq_true, beq_iff_eq, beq_iff_eq] at hpred
  have := hInv.procCons kv.1 kv.2
    (lookupA_eq_some_of_mem_pair hInv.byIdNodup hkv) hpred.1
  rw [hpred.2, hfree] at this
  cases this

theorem countProcessing_le_processing_length {s : PromptQueue}
    (hInv : QInv s) : countProcessing s ≤ s.processing.length := by
  rw [countProcessing]
  set flt := s.promptsById.filter fun kv =>
    kv.2.status == PromptStatus.processing with hflt
  have hsub : flt.Sublist s.promptsById := List.filter_sublist _
  have hndk : (keysA flt).Nodup := (hsub.map Prod.fst).nodup hInv.byIdNodup
  have hfltnd : flt.Nodup := List.Nodup.of_map Prod.fst hndk
  have hmemproc : ∀ a ∈ flt, lookupA s.processing a.2.tabId = some a.1 := by
    intro a ha
    rw [hflt, List.mem_filter, beq_iff_eq] at ha
    exact hInv.procCons a.1 a.2
      (lookupA_eq_some_of_mem_pair hInv.byIdNodup ha.1) ha.2
  have htabs : (flt.map fun kv => kv.2.tabId).Nodup := by
    refine List.Nodup.map_on ?_ hfltnd
    intro a ha b hb htab
    have hla := hmemproc a ha
    have hlb := hmemproc b hb
    rw [htab, hlb] at hla
    have h1 : b.1 = a.1 := Option.some.inj hla
    have hba : lookupA s.promptsById a.1 = some a.2 := by
      rw [hflt, List.mem_filter] at ha
      exact lookupA_eq_some_of_mem_pair hInv.byIdNodup ha.1
    have hbb : lookupA s.promptsById a.1 = some b.2 := by
      rw [hflt, List.mem_filter] at hb
      rw [← h1]
      exact lookupA_eq_some_of_mem_pair hInv.byIdNodup hb.1
    rw [hba] at hbb
    exact Prod.ext h1.symm (Option.some.inj hbb)
  have hsubset : (flt.map fun kv => kv.2.tabId) ⊆ keysA s.processing := by
    intro x hx
    rcases List.mem_map.mp hx with ⟨a, ha, rfl⟩
    have := mem_of_lookupA_eq_some (hmemproc a ha)
    exact List.mem_map.mpr ⟨(a.2.tabId, a.1), this, rfl⟩
  have hle := (List.subperm_of_subset htabs hsubset).length_le
  simp only [keysA, List.length_map] at hle
  exact hle

theorem eraseA_insertA_self {β : Type} (k : String) (v : β)
    (l : List (String × β)) : eraseA k (insertA k v l) = eraseA k l := by
  rw [insertA, eraseA_cons_self, eraseA_idem]

theorem pushHistory_getLast (p : QueuedPrompt) (l : List QueuedPrompt) :
    (pushHistory p l).getLast? = some p := by
  rw [pushHistory]
  exact List.getLast?_concat _

theorem pushHistory_length_le (p : QueuedPrompt) (l : List QueuedPrompt)
    (h : l.length ≤ 100) : (pushHistory p l).length ≤ 100 := by
  rw [pushHistory]
  by_cases hl : l.length ≥ 100
  · rw [if_pos hl, List.length_append, List.length_tail]
    simp only [List.length_singleton]
    omega
  · rw [if_neg hl, List.length_append]
    simp only [List.length_singleton]
    omega

theorem dequeueLoop_maxConcurrent (now : Nat) (fuel : Nat) :
    ∀ s : PromptQueue,
      (dequeueLoop now fuel s).2.maxConcurrent = s.maxConcurrent := by
  induction fuel with
  | zero =>
    intro s
    rfl
  | succ fuel ih =>
    intro s
    rcases hq : s.queue with _ | ⟨h, rest⟩
    · simp only [dequeueLoop, hq]
    · by_cases hbusy : containsKeyA s.processing h.tabId = true
      · have hstep : dequeueLoop now (fuel + 1) s =
            dequeueLoop now fuel { s with queue := insertHeap h rest } := by
          simp only [dequeueLoop, hq]
          rw [if_pos hbusy]
        rw [hstep]
        exact ih _
      · rcases hst : lookupA s.promptsById h.id with _ | stored
        · have hstep : dequeueLoop now (fuel + 1) s = markPrompt now h rest s := by
            simp only [dequeueLoop, hq]
            rw [if_neg hbusy]
            simp only [hst]
          rw [hstep]
          rfl
        · by_cases hcan : stored.status = PromptStatus.cancelled
          · have hstep : dequeueLoop now (fuel + 1) s =
                dequeueLoop now fuel { s with queue := rest } := by
              simp only [dequeueLoop, hq]
              rw [if_neg hbusy]
              simp only [hst]
              rw [if_pos hcan]
            rw [hstep]
            exact ih _
          · have hstep : dequeueLoop now (fuel + 1) s = markPrompt now h rest s := by
              simp only [dequeueLoop, hq]
              rw [if_neg hbusy]
              simp only [hst]
              rw [if_neg hcan]
            rw [hstep]
            rfl

theorem applyOp_maxConcurrent (s : PromptQueue) (op : QOp) :
    (applyOp s op).maxConcurrent = s.maxConcurrent := by
  cases op with
  | enq p => exact enqueue_maxConcurrent p s
  | deq fuel now =>
    rw [applyOp]
    by_cases hge : s.processing.length ≥ s.maxConcurrent
    · rw [PromptQueue.dequeue, if_pos hge]
    · rw [PromptQueue.dequeue, if_neg hge]
      exact dequeueLoop_maxConcurrent now fuel s
  | comp pid resp now =>
    rw [applyOp]
    rcases hp : lookupA s.promptsById pid with _ | p
    · simp only [PromptQueue.complete, hp]
    · simp only [PromptQueue.complete, hp]
  | fl pid err now =>
    rw [applyOp]
    rcases hp : lookupA s.promptsById pid with _ | p
    · simp only [PromptQueue.fail, hp]
    · simp only [PromptQueue.fail, hp]
  | cncl pid =>
    rw [applyOp]
    rcases hp : lookupA s.promptsById pid with _ | p
    · simp only [PromptQueue.cancel, hp]
    · by_cases hq : p.status = PromptStatus.queued
      · simp only [PromptQueue.cancel, hp, hq, if_pos]
      · simp only [PromptQueue.cancel, hp, hq, if_neg, if_false]

theorem runOps_maxConcurrent (ops : List QOp) :
    ∀ s : PromptQueue, (runOps s ops).maxConcurrent = s.maxConcurrent := by
  induction ops with
  | nil =>
    intro s
    rfl
  | cons op ops ih =>
    intro s
    rw [runOps, List.foldl_cons]
    have := ih (applyOp s op)
    rw [runOps] at this
    rw [this]
    exact applyOp_maxConcurrent s op

/-! ## Lemmas about `cancel` -/

theorem cancel_true_iff (s : PromptQueue) (pid : String) :
    (s.cancel pid).1 = true ↔
      ∃ p, lookupA s.promptsById pid = some p ∧
        p.status = PromptStatus.queued := by
  rcases hp : lookupA s.promptsById pid with _ | p
  · simp [PromptQueue.cancel, hp]
  · by_cases hq : p.status = PromptStatus.queued
    · simp [PromptQueue.cancel, hp, hq]
    · simp [PromptQueue.cancel, hp, hq]

theorem cancel_of_processing {s : PromptQueue} {pid : String} {p : QueuedPrompt}
    (hp : lookupA s.promptsById pid = some p)
    (hps : p.status = PromptStatus.processing) : s.cancel pid = (false, s) := by
  simp only [PromptQueue.cancel, hp]
  rw [if_neg]
  rw [hps]
  decide

theorem notQueued_dequeueLoop_aux (pid : String) (now : Nat) (fuel : Nat) :
    ∀ s : PromptQueue,
      (∀ p, lookupA s.promptsById pid = some p →
        p.status ≠ PromptStatus.queued) →
      ∀ p, lookupA (dequeueLoop now fuel s).2.promptsById pid = some p →
        p.status ≠ PromptStatus.queued := by
  induction fuel with
  | zero =>
    intro s hnq
    exact hnq
  | succ fuel ih =>
    intro s hnq
    rcases hq : s.queue with _ | ⟨h, rest⟩
    · have hstep : dequeueLoop now (fuel + 1) s = (DeqResult.empty, s) := by
        simp only [dequeueLoop, hq]
      rw [hstep]
      exact hnq
    · by_cases hbusy : containsKeyA s.processing h.tabId = true
      · have hstep : dequeueLoop now (fuel + 1) s =
            dequeueLoop now fuel { s with queue := insertHeap h rest } := by
          simp only [dequeueLoop, hq]
          rw [if_pos hbusy]
        rw [hstep]
        exact ih _ hnq
      · have hmark : ∀ p,
            lookupA (markPrompt now h rest s).2.promptsById pid = some p →
            p.status ≠ PromptStatus.queued := by
          intro p hp
          simp only [markPrompt] at hp
          by_cases hid : pid = h.id
          · subst hid
            rw [lookupA_insertA_self] at hp
            cases hp
            intro hcon
            cases hcon
          · rw [lookupA_insertA_ne _ _ hid] at hp
            exact hnq p hp
        rcases hst : lookupA s.promptsById h.id with _ | stored
        · have hstep : dequeueLoop now (fuel + 1) s = markPrompt now h rest s := by
            simp only [dequeueLoop, hq]
            rw [if_neg hbusy]
            simp only [hst]
          rw [hstep]
          exact hmark
        · by_cases hcan : stored.status = PromptStatus.cancelled
          · have hstep : dequeueLoop now (fuel + 1) s =
                dequeueLoop now fuel { s with queue := rest } := by
              simp only [dequeueLoop, hq]
              rw [if_neg hbusy]
              simp only [hst]
              rw [if_pos hcan]
            rw [hstep]
            exact ih _ hnq
          · have hstep : dequeueLoop now (fuel + 1) s = markPrompt now h rest s := by
              simp only [dequeueLoop, hq]
              rw [if_neg hbusy]
              simp only [hst]
              rw [if_neg hcan]
            rw [hstep]
            exact hmark

theorem notQueued_applyOp {pid : String} {s : PromptQueue} {op : QOp}
    (hnq : ∀ p, lookupA s.promptsById pid = some p →
      p.status ≠ PromptStatus.queued)
    (hop : ∀ q, op = QOp.enq q → q.id ≠ pid) :
    ∀ p, lookupA (applyOp s op).promptsById pid = some p →
      p.status ≠ PromptStatus.queued := by
  cases op with
  | enq q =>
    intro p hp
    rw [applyOp, enqueue_promptsById,
      lookupA_insertA_ne _ _ (Ne.symm (hop q rfl))] at hp
    exact hnq p hp
  | deq fuel now =>
    rw [applyOp]
    by_cases hge : s.processing.length ≥ s.maxConcurrent
    · rw [PromptQueue.dequeue, if_pos hge]
      exact hnq
    · rw [PromptQueue.dequeue, if_neg hge]
      exact notQueued_dequeueLoop_aux pid now fuel s hnq
  | comp pid2 resp now =>
    intro p hp
    rw [applyOp] at hp
    rcases hp2 : lookupA s.promptsById pid2 with _ | p2
    · simp only [PromptQueue.complete, hp2] at hp
      exact hnq p hp
    · simp only [PromptQueue.complete, hp2] at hp
      by_cases hid : pid = pid2
      · subst hid
        rw [lookupA_eraseA_self] at hp
        cases hp
      · rw [lookupA_eraseA_ne _ hid] at hp
        exact hnq p hp
  | fl pid2 err now =>
    intro p hp
    rw [applyOp] at hp
    rcases hp2 : lookupA s.promptsById pid2 with _ | p2
    · simp only [PromptQueue.fail, hp2] at hp
      exact hnq p hp
    · simp only [PromptQueue.fail, hp2] at hp
      by_cases hid : pid = pid2
      · subst hid
        rw [lookupA_eraseA_self] at hp
        cases hp
      · rw [lookupA_eraseA_ne _ hid] at hp
        exact hnq p hp
  | cncl pid2 =>
    intro p hp
    rw [applyOp] at hp
    rcases hp2 : lookupA s.promptsById pid2 with _ | p2
    · simp only [PromptQueue.cancel, hp2] at hp
      exact hnq p hp
    · by_cases hq2 : p2.status = PromptStatus.queued
      · simp only [PromptQueue.cancel, hp2, hq2, if_pos] at hp
        by_cases hid : pid = pid2
        · subst hid
          rw [lookupA_insertA_self] at hp
          cases hp
          intro hcon
          cases hcon
        · rw [lookupA_insertA_ne _ _ hid] at hp
          exact hnq p hp
      · simp only [PromptQueue.cancel, hp2, hq2, if_neg, if_false] at hp
        exact hnq p hp

theorem notQueued_runOps {pid : String} (ops : List QOp) :
    ∀ s : PromptQueue,
      (∀ p, lookupA s.promptsById pid = some p →
        p.status ≠ PromptStatus.queued) →
      (ops.all fun op => match op with
        | QOp.enq q => q.id != pid
        | _ => true) = true →
      ∀ p, lookupA (runOps s ops).promptsById pid = some p →
        p.status ≠ PromptStatus.queued := by
  induction ops with
  | nil =>
    intro s hnq _
    exact hnq
  | cons op ops ih =>
    intro s hnq hall
    rw [List.all_cons, Bool.and_eq_true] at hall
    refine ih (applyOp s op) (notQueued_applyOp hnq ?_) hall.2
    intro q hq
    subst hq
    have := hall.1
    rwa [bne_iff_ne] at this

/-! ## Lemmas about `ConflictDetector` -/

theorem contains_filter_ne_false (t : String) (l : List String) :
    ((l.filter fun x => x ≠ t).contains t) = false := by
  rw [Bool.eq_false_iff]
  intro hcon
  rw [List.contains, List.elem_iff] at hcon
  have := List.of_mem_filter hcon
  simp at this

theorem all_foldl {α β : Type} (pred : β → Bool) (step : List β → α → List β)
    (hstep : ∀ acc a, acc.all pred = true → (step acc a).all pred = true) :
    ∀ (l : List α) (acc : List β), acc.all pred = true →
      (l.foldl step acc).all pred = true := by
  intro l
  induction l with
  | nil =>
    intro acc hacc
    exact hacc
  | cons a l ih =>
    intro acc hacc
    rw [List.foldl_cons]
    exact ih (step acc a) (hstep acc a hacc)

theorem detectConflicts_concurrent_only (now : Nat) (d : ConflictDetector) :
    ((detectConflicts now d).conflicts.all fun c =>
      c.conflictType == ConflictType.concurrentEdit) = true := by
  rw [List.all_eq_true]
  intro c hc
  simp only [detectConflicts] at hc
  rcases List.mem_filterMap.mp hc with ⟨ft, _, hft⟩
  by_cases hlen : ft.2.length > 1
  · rw [if_pos hlen] at hft
    cases hft
    rfl
  · rw [if_neg hlen] at hft
    cases hft

/-! ## The claims -/

/-- C1: the claim states that in a `PromptQueue` state whose processing
count is below the cap and in which every request remaining in the heap
belongs to a tab that already has a Processing request, `dequeue`
terminates and returns none.  The code is the pure re-push-and-continue
loop the specification names as the infinite-loop hazard: in `c1Queue`
(cap 2, tab `"T"` busy with `prompt_T_1`, `prompt_T_2` for the same tab in
the heap) the scan pops `prompt_T_2`, sees the busy tab, pushes it back
and pops it again — for every fuel bound the loop is still running, so the
Rust implementation never returns at all. -/
theorem c1_dequeue_scan_diverges_on_busy_only_heap :
    ∀ fuel now : Nat, (c1Queue.dequeue fuel now).1 = DeqResult.diverged := by
  have hloop : ∀ (f n : Nat),
      (dequeueLoop n f c1Queue).1 = DeqResult.diverged := by
    intro f n
    induction f with
    | zero => rfl
    | succ f ih =>
      have hstep : dequeueLoop n (f + 1) c1Queue = dequeueLoop n f c1Queue := rfl
      rw [hstep]
      exact ih
  intro fuel now
  rw [PromptQueue.dequeue, if_neg (by decide)]
  exact hloop fuel now

/-- C2 (counterexample): after the call sequence
`enqueue pA; enqueue pB; dequeue; complete "prompt_T_2"; dequeue` — where
`complete` is invoked with the id of the still-Queued second request — tab
`"T"` holds two requests in Processing status, refuting the claim for
arbitrary sequences of the five calls. -/
theorem c2_counterexample : countTabProcessing cex2Queue "T" = 2 := by decide

/-- C2 (amended): in every state reached from an empty queue by a
well-used call sequence (enqueued prompts are fresh and Queued;
`complete`/`fail` are invoked only with ids of currently-Processing
requests, as `SessionManager::process_queue` does), each tab has at most
one request in Processing status, and whenever `dequeue` returns a
request, its tab had no request in Processing status at call time. -/
theorem c2_per_tab_at_most_one_processing (max : Nat) (ops : List QOp)
    (hwf : wfTrace (PromptQueue.new max) ops = true) :
    (∀ t, countTabProcessing (runOps (PromptQueue.new max) ops) t ≤ 1) ∧
    ∀ fuel now p,
      ((runOps (PromptQueue.new max) ops).dequeue fuel now).1 =
        DeqResult.got p →
      countTabProcessing (runOps (PromptQueue.new max) ops) p.tabId = 0 := by
  have hInv := qinv_runOps ops (PromptQueue.new max) (qinv_new max) hwf
  constructor
  · exact fun t => countTabProcessing_le_one hInv t
  · intro fuel now p hp
    have hspec := (dequeue_spec hInv fuel now).2 p hp
    exact countTabProcessing_eq_zero_of_free hInv hspec.1

/-- Witness for C2 at a concrete well-used trace. -/
theorem c2_witness :
    countTabProcessing (runOps (PromptQueue.new 2) [QOp.enq pA]) "T" ≤ 1 ∧
    countTabProcessing (runOps (PromptQueue.new 2) [QOp.enq pA]) pA1.tabId = 0 :=
  ⟨(c2_per_tab_at_most_one_processing 2 [QOp.enq pA] (by decide)).1 "T",
   (c2_per_tab_at_most_one_processing 2 [QOp.enq pA] (by decide)).2 5 10 pA1
     (by decide)⟩

/-- C3 (counterexample): the same wrong-id `complete` sequence with cap 1
leaves two requests in Processing status, exceeding the configured cap. -/
theorem c3_counterexample :
    countProcessing cex3Queue = 2 ∧ cex3Queue.maxConcurrent = 1 := by decide

/-- C3 (amended): for every sequence of calls the `processing` slot map
respects the cap, and for well-used sequences (`complete`/`fail` only on
currently-Processing ids, fresh Queued enqueues) the number of requests in
Processing status also respects the cap. -/
theorem c3_processing_within_cap (max : Nat) (ops : List QOp) :
    (runOps (PromptQueue.new max) ops).processing.length ≤ max ∧
    (wfTrace (PromptQueue.new max) ops = true →
      countProcessing (runOps (PromptQueue.new max) ops) ≤ max) := by
  have hmax := runOps_maxConcurrent ops (PromptQueue.new max)
  constructor
  · have hc := runOps_cap ops (PromptQueue.new max) (Nat.zero_le _)
    rw [hmax] at hc
    exact hc
  · intro hwf
    have hInv := qinv_runOps ops (PromptQueue.new max) (qinv_new max) hwf
    have h1 := countProcessing_le_processing_length hInv
    have h2 := hInv.cap
    rw [hmax] at h2
    exact Nat.le_trans h1 h2

/-- Witness for C3 at a concrete well-used trace. -/
theorem c3_witness :
    (runOps (PromptQueue.new 1) [QOp.enq pA, QOp.deq 5 100]).processing.length ≤ 1 ∧
    countProcessing (runOps (PromptQueue.new 1) [QOp.enq pA, QOp.deq 5 100]) ≤ 1 :=
  ⟨(c3_processing_within_cap 1 [QOp.enq pA, QOp.deq 5 100]).1,
   (c3_processing_within_cap 1 [QOp.enq pA, QOp.deq 5 100]).2 (by decide)⟩

/-- C4: whenever `dequeue` returns a request from a reachable (well-used)
state, that request beats every dequeue-eligible request — every stored
Queued request whose tab has no Processing entry — either strictly on
priority, or on equal priority with a creation timestamp that is no later
(pure FIFO tie-break). -/
theorem c4_dequeue_priority_fifo (max : Nat) (ops : List QOp)
    (hwf : wfTrace (PromptQueue.new max) ops = true) (fuel now : Nat)
    (p : QueuedPrompt)
    (hd : ((runOps (PromptQueue.new max) ops).dequeue fuel now).1 =
      DeqResult.got p) :
    ∀ q ∈ candidateList (runOps (PromptQueue.new max) ops),
      q.priority.rank < p.priority.rank ∨
        (p.priority.rank = q.priority.rank ∧ p.createdAt ≤ q.createdAt) := by
  have hInv := qinv_runOps ops (PromptQueue.new max) (qinv_new max) hwf
  have hspec := (dequeue_spec hInv fuel now).2 p hd
  exact hspec.2.2.2.2.2.2

/-- Witness for C4: dequeuing from `w1Queue` returns `pA` marked
Processing, and it satisfies the ordering bound at the eligible request
`pA` itself. -/
theorem c4_witness :
    pA.priority.rank < pA1.priority.rank ∨
      (pA1.priority.rank = pA.priority.rank ∧ pA1.createdAt ≤ pA.createdAt) :=
  c4_dequeue_priority_fifo 1 [QOp.enq pA] (by decide) 5 10 pA1 (by decide) pA
    (by decide)

/-- C5: `cancel(id)` returns true exactly when the stored request has
Queued status at call time; after a successful cancel, every later
`cancel` with the same id returns false across any sequence of the five
calls that does not enqueue a new request with that same id; and a
Processing request is never cancelled (the call returns false and leaves
the state unchanged). -/
theorem c5_cancel_only_queued :
    (∀ (s : PromptQueue) (pid : String),
      (s.cancel pid).1 = true ↔
        ∃ p, lookupA s.promptsById pid = some p ∧
          p.status = PromptStatus.queued) ∧
    (∀ (s : PromptQueue) (pid : String) (ops : List QOp),
      (s.cancel pid).1 = true →
      (ops.all fun op => match op with
        | QOp.enq q => q.id != pid
        | _ => true) = true →
      ((runOps (s.cancel pid).2 ops).cancel pid).1 = false) ∧
    ∀ (s : PromptQueue) (pid : String) (p : QueuedPrompt),
      lookupA s.promptsById pid = some p →
      p.status = PromptStatus.processing → s.cancel pid = (false, s) := by
  refine ⟨cancel_true_iff, ?_, fun s pid p hp hps => cancel_of_processing hp hps⟩
  intro s pid ops htrue hall
  have hnq : ∀ p, lookupA (s.cancel pid).2.promptsById pid = some p →
      p.status ≠ PromptStatus.queued := by
    rcases (cancel_true_iff s pid).mp htrue with ⟨p0, hp0, hq0⟩
    intro p hp
    simp only [PromptQueue.cancel, hp0, hq0, if_pos] at hp
    rw [lookupA_insertA_self] at hp
    cases hp
    intro hcon
    cases hcon
  have hnq2 := notQueued_runOps ops _ hnq hall
  rw [Bool.eq_false_iff]
  intro hcon
  rcases (cancel_true_iff _ pid).mp hcon with ⟨p, hp, hq⟩
  exact hnq2 p hp hq

/-- Witness for C5: in `w1Queue` the queued request `prompt_T_1` cancels
successfully; cancelling again after a later dequeue call returns false;
and in `w8Queue` (where it is Processing) cancel returns false and leaves
the state unchanged. -/
theorem c5_witness :
    (w1Queue.cancel "prompt_T_1").1 = true ∧
    ((runOps (w1Queue.cancel "prompt_T_1").2 [QOp.deq 5 9]).cancel
      "prompt_T_1").1 = false ∧
    w8Queue.cancel "prompt_T_100" = (false, w8Queue) :=
  ⟨(c5_cancel_only_queued.1 w1Queue "prompt_T_1").mpr ⟨pA, by decide, rfl⟩,
   c5_cancel_only_queued.2.1 w1Queue "prompt_T_1" [QOp.deq 5 9]
     ((c5_cancel_only_queued.1 w1Queue "prompt_T_1").mpr ⟨pA, by decide, rfl⟩)
     (by decide),
   c5_cancel_only_queued.2.2 w8Queue "prompt_T_100" pC1 (by decide) rfl⟩

/-- C6: when the provider call of a dispatch step fails, `process_queue`
marks the dequeued request Failed (it lands in the history with the error
text and its completion stamp), still returns
`Some((id, "Error: " ++ e))` to the caller instead of propagating an
error, removes the request from active tracking, and restores the
`processing` slot map to exactly its pre-step value — so the next dispatch
step dequeues exactly as it would have before this step ran. -/
theorem c6_provider_failure_isolated (max : Nat) (ops : List QOp)
    (hwf : wfTrace (PromptQueue.new max) ops = true)
    (exec : QueuedPrompt → Except String String) (fuel now1 now2 : Nat)
    (p : QueuedPrompt) (e : String)
    (hd : ((runOps (PromptQueue.new max) ops).dequeue fuel now1).1 =
      DeqResult.got p)
    (he : exec p = Except.error e) :
    (processQueue exec fuel now1 now2 (runOps (PromptQueue.new max) ops)).1 =
      some (some (p.id, "Error: " ++ e)) ∧
    (processQueue exec fuel now1 now2
        (runOps (PromptQueue.new max) ops)).2.processing =
      (runOps (PromptQueue.new max) ops).processing ∧
    lookupA (processQueue exec fuel now1 now2
      (runOps (PromptQueue.new max) ops)).2.promptsById p.id = none ∧
    (processQueue exec fuel now1 now2
        (runOps (PromptQueue.new max) ops)).2.completed.getLast? =
      some { p with
        status := PromptStatus.failed
        completedAt := some now2
        error := some e } := by
  set s := runOps (PromptQueue.new max) ops with hs
  have hInv := qinv_runOps ops (PromptQueue.new max) (qinv_new max) hwf
  have hspec := (dequeue_spec hInv fuel now1).2 p hd
  obtain ⟨hfree, hpst, hpstart, hproc, hbyid, hstored, hcand⟩ := hspec
  rcases hdq : s.dequeue fuel now1 with ⟨r, s1⟩
  rw [hdq] at hd hproc hbyid
  dsimp only at hd hproc hbyid
  subst hd
  have hlk : lookupA s1.promptsById p.id = some p := by
    rw [hbyid]
    exact lookupA_insertA_self _ _ _
  have hfailproc : (s1.fail p.id e now2).processing = s.processing := by
    simp only [PromptQueue.fail, hlk]
    rw [hproc, eraseA_insertA_self, eraseA_eq_self_of_lookup_none hfree]
  have hfailbyid : lookupA (s1.fail p.id e now2).promptsById p.id = none := by
    simp only [PromptQueue.fail, hlk]
    exact lookupA_eraseA_self _ _
  have hfailhist : (s1.fail p.id e now2).completed.getLast? =
      some { p with
        status := PromptStatus.failed
        completedAt := some now2
        error := some e } := by
    simp only [PromptQueue.fail, hlk]
    exact pushHistory_getLast _ _
  refine ⟨?_, ?_, ?_, ?_⟩
  · simp only [processQueue, hdq, he]
  · simp only [processQueue, hdq, he]
    exact hfailproc
  · simp only [processQueue, hdq, he]
    exact hfailbyid
  · simp only [processQueue, hdq, he]
    exact hfailhist

/-- Witness for C6: a provider that always fails still yields a result
pair for `prompt_T_1` and leaves the `processing` map as it was before
the dispatch step. -/
theorem c6_witness :
    (processQueue (fun _ => Except.error "boom") 5 10 20
        (runOps (PromptQueue.new 1) [QOp.enq pA])).1 =
      some (some (pA1.id, "Error: " ++ "boom")) ∧
    (processQueue (fun _ => Except.error "boom") 5 10 20
        (runOps (PromptQueue.new 1) [QOp.enq pA])).2.processing =
      (runOps (PromptQueue.new 1) [QOp.enq pA]).processing :=
  ⟨(c6_provider_failure_isolated 1 [QOp.enq pA] (by decide)
      (fun _ => Except.error "boom") 5 10 20 pA1 "boom" (by decide) rfl).1,
   (c6_provider_failure_isolated 1 [QOp.enq pA] (by decide)
      (fun _ => Except.error "boom") 5 10 20 pA1 "boom" (by decide) rfl).2.1⟩

/-- C7 (counterexample): two distinct requests — different session ids,
contents and providers — constructed by `QueuedPrompt::new` for the same
tab in the same millisecond receive the same id
(`prompt_{tab_id}_{now}`), so ids are not unique for the lifetime of the
process. -/
theorem c7_counterexample :
    (QueuedPrompt.new "tabA" "sess1" "hello" CLIProvider.hydra
        1700000000000).id =
      (QueuedPrompt.new "tabA" "sess2" "world" CLIProvider.gemini
        1700000000000).id ∧
    QueuedPrompt.new "tabA" "sess1" "hello" CLIProvider.hydra 1700000000000 ≠
      QueuedPrompt.new "tabA" "sess2" "world" CLIProvider.gemini
        1700000000000 := by
  exact ⟨rfl, by decide⟩

/-- C7 (amended): the id produced by `QueuedPrompt::new` is a pure
function of the tab id and the creation millisecond alone — any two
requests for the same tab constructed in the same millisecond share an id
regardless of session id, content or provider. -/
theorem c7_id_depends_only_on_tab_and_time (tab sess1 content1 sess2
    content2 : String) (prov1 prov2 : CLIProvider) (now : Nat) :
    (QueuedPrompt.new tab sess1 content1 prov1 now).id =
      (QueuedPrompt.new tab sess2 content2 prov2 now).id := rfl

/-- C8 (counterexample): `fail` does not accumulate wait or service time.
After enqueuing at t=100, starting at t=200 and failing at t=300 — a wait
of 100 ms and a service time of 100 ms — both running totals are still 0,
refuting the claim that `fail` accumulates them like `complete` does. -/
theorem c8_counterexample :
    cex8Queue.totalWaitMs = 0 ∧ cex8Queue.totalProcessMs = 0 ∧
    cex8Queue.totalFailed = 1 ∧
    cex8Queue.completed.getLast? =
      some { pC with
        status := PromptStatus.failed
        startedAt := some 200
        completedAt := some 300
        error := some "boom" } := by
  exact ⟨rfl, rfl, rfl, rfl⟩

/-- C8 (amended): `complete` pops the request out of active tracking,
stamps its completion time, accumulates wait (`start - created`) and
service (`complete - start`) time into the totals behind
`average_wait_ms`/`average_process_ms` (which divide by the completed
count), releases the tab's busy slot and pushes the request into the
100-bounded history; `fail` does all of that except the time accounting —
it increments only the failure counter and leaves both running totals
unchanged. -/
theorem c8_complete_fail_bookkeeping (s : PromptQueue)
    (pid resp err : String) (now st : Nat) (p : QueuedPrompt)
    (hp : lookupA s.promptsById pid = some p)
    (hst : p.startedAt = some st)
    (hhist : s.completed.length ≤ 100) :
    ((s.complete pid resp now).totalProcessMs =
        s.totalProcessMs + (now - st) ∧
      (s.complete pid resp now).totalWaitMs =
        s.totalWaitMs + (st - p.createdAt) ∧
      (s.complete pid resp now).totalCompleted = s.totalCompleted + 1 ∧
      lookupA (s.complete pid resp now).promptsById pid = none ∧
      lookupA (s.complete pid resp now).processing p.tabId = none ∧
      (s.complete pid resp now).completed.getLast? =
        some { p with
          status := PromptStatus.completed
          completedAt := some now
          response := some resp } ∧
      (s.complete pid resp now).completed.length ≤ 100 ∧
      (s.complete pid resp now).getStats.averageWaitMs =
        (s.totalWaitMs + (st - p.createdAt)) / (s.totalCompleted + 1) ∧
      (s.complete pid resp now).getStats.averageProcessMs =
        (s.totalProcessMs + (now - st)) / (s.totalCompleted + 1)) ∧
    ((s.fail pid err now).totalProcessMs = s.totalProcessMs ∧
      (s.fail pid err now).totalWaitMs = s.totalWaitMs ∧
      (s.fail pid err now).totalFailed = s.totalFailed + 1 ∧
      (s.fail pid err now).totalCompleted = s.totalCompleted ∧
      lookupA (s.fail pid err now).promptsById pid = none ∧
      lookupA (s.fail pid err now).processing p.tabId = none ∧
      (s.fail pid err now).completed.getLast? =
        some { p with
          status := PromptStatus.failed
          completedAt := some now
          error := some err } ∧
      (s.fail pid err now).completed.length ≤ 100) := by
  constructor
  · refine ⟨?_, ?_, ?_, ?_, ?_, ?_, ?_, ?_, ?_⟩ <;>
      simp only [PromptQueue.complete, PromptQueue.getStats, hp, hst]
    · exact lookupA_eraseA_self _ _
    · exact lookupA_eraseA_self _ _
    · exact pushHistory_getLast _ _
    · exact pushHistory_length_le _ _ hhist
    · rw [if_pos (Nat.succ_pos _)]
    · rw [if_pos (Nat.succ_pos _)]
  · refine ⟨?_, ?_, ?_, ?_, ?_, ?_, ?_, ?_⟩ <;>
      simp only [PromptQueue.fail, hp]
    · exact lookupA_eraseA_self _ _
    · exact lookupA_eraseA_self _ _
    · exact pushHistory_getLast _ _
    · exact pushHistory_length_le _ _ hhist

/-- Witness for C8 at the concrete state `w8Queue` (request created at
t=100, started at t=200), completing or failing at t=300. -/
theorem c8_witness :
    (w8Queue.complete "prompt_T_100" "ok" 300).totalProcessMs =
      w8Queue.totalProcessMs + (300 - 200) ∧
    (w8Queue.fail "prompt_T_100" "boom" 300).totalWaitMs =
      w8Queue.totalWaitMs :=
  ⟨(c8_complete_fail_bookkeeping w8Queue "prompt_T_100" "ok" "boom" 300 200
      pC1 (by decide) rfl (by decide)).1.1,
   (c8_complete_fail_bookkeeping w8Queue "prompt_T_100" "ok" "boom" 300 200
      pC1 (by decide) rfl (by decide)).2.2.1⟩

/-- C9 (counterexample): after `tab1` registers `/a.rs` and
`check_external_change` appends an `ExternalChange` conflict for it, a
`register_files` call by `tab2` for the unrelated file `/b.rs` leaves the
conflict list empty — the recomputation in `detect_conflicts` clears the
whole list and rebuilds only `ConcurrentEdit` entries, so the
`ExternalChange` entry does not survive, refuting the claim. -/
theorem c9_counterexample :
    (cexDetector2.conflicts.any fun c =>
      c.conflictType == ConflictType.externalChange) = true ∧
    cexDetector3.conflicts = [] := by
  exact ⟨by decide, rfl⟩

/-- C9 (amended): `ExternalChange` entries survive only until the next
`register_files` call: every `register_files` call rebuilds the conflict
list from scratch and the result contains only `ConcurrentEdit` entries;
`resolve_conflict` removes every conflict on the resolved (normalized)
path, and `unregister_tab` removes every conflict naming the closed tab. -/
theorem c9_conflict_removal :
    (∀ (d : ConflictDetector) (tabId : String) (files : List String)
        (cwd : String) (now : Nat) (mtime : String → Option Nat),
      ((d.registerFiles tabId files cwd now mtime).conflicts.all fun c =>
        c.conflictType == ConflictType.concurrentEdit) = true) ∧
    (∀ (d : ConflictDetector) (path cwd : String),
      ((d.resolveConflict path cwd).conflicts.all fun c =>
        c.filePath ≠ normalizePath cwd path) = true) ∧
    ∀ (d : ConflictDetector) (tabId : String),
      ((d.unregisterTab tabId).conflicts.all fun c =>
        !(c.tabsInvolved.contains tabId)) = true := by
  refine ⟨?_, ?_, ?_⟩
  · intro d tabId files cwd now mtime
    simp only [ConflictDetector.registerFiles]
    exact detectConflicts_concurrent_only now _
  · intro d path cwd
    rw [List.all_eq_true]
    intro c hc
    simp only [ConflictDetector.resolveConflict] at hc
    exact (List.mem_filter.mp hc).2
  · intro d tabId
    rw [List.all_eq_true]
    intro c hc
    simp only [ConflictDetector.unregisterTab] at hc
    have hpred := (List.mem_filter.mp hc).2
    have hni : ¬(c.tabsInvolved.contains tabId = true) := of_decide_eq_true hpred
    rw [Bool.not_eq_true] at hni
    rw [hni]
    rfl

/-- C10: `would_conflict` takes the detector by shared reference: the
state it returns is the argument itself, `get_conflicts` is unchanged,
an immediately repeated identical call yields the identical result list,
and every conflict it reports names only tabs other than the caller, is
never an empty tab list, and is advisory `ConcurrentEdit`. -/
theorem c10_would_conflict_pure :
    ∀ (d : ConflictDetector) (tabId : String) (files : List String)
      (cwd : String) (now : Nat),
      (d.wouldConflict tabId files cwd now).2 = d ∧
      (d.wouldConflict tabId files cwd now).2.getConflicts =
        d.getConflicts ∧
      ((d.wouldConflict tabId files cwd now).2.wouldConflict tabId files
        cwd now).1 = (d.wouldConflict tabId files cwd now).1 ∧
      ((d.wouldConflict tabId files cwd now).1.all fun c =>
        !(c.tabsInvolved.contains tabId) && !c.tabsInvolved.isEmpty &&
          (c.conflictType == ConflictType.concurrentEdit)) = true := by
  intro d tabId files cwd now
  refine ⟨rfl, rfl, rfl, ?_⟩
  simp only [ConflictDetector.wouldConflict]
  refine all_foldl _ _ ?_ files [] rfl
  intro acc file hacc
  dsimp only
  rcases hft : lookupA d.fileToTabs (normalizePath cwd file) with _ | tabs
  · exact hacc
  · dsimp only
    by_cases hne : (tabs.filter fun t => t ≠ tabId) ≠ []
    · rw [if_pos hne, List.all_append, Bool.and_eq_true]
      refine ⟨hacc, ?_⟩
      have h1 : ((tabs.filter fun t => t ≠ tabId).contains tabId) = false :=
        contains_filter_ne_false tabId tabs
      have h2 : (tabs.filter fun t => t ≠ tabId).isEmpty = false := by
        rw [← Bool.not_eq_true, List.isEmpty_iff]
        exact hne
      simp only [List.all_cons, List.all_nil, Bool.and_true]
      rw [h1, h2]
      rfl
    · rw [if_neg hne]
      exact hacc
